import Mathlib

/-!
# alttpo/systray: the macOS and Linux platform shims

A shallow embedding of `systray_darwin.go` and `systray_linux.go`.

* Go strings and byte slices are lists of bytes (`List Nat`, one entry per byte).
* A `uint32` is a `Nat` below `2 ^ 32`; a `C.int` / `C.short` is an `Int`, and the
  Go conversions `C.int(x)` and `uint32(x)` are the explicit wrap-arounds
  `toCInt` and `toUint32`.
* Calls into the Objective-C layer are recorded as a list of `NativeCall`s, upcalls
  into the generic package as a list of `Upcall`s, and process / bus / log activity
  as a list of `Event`s.
* A Go function that can hit a run-time panic returns a `Run`: the native calls it
  made and whether it returned or panicked.
* The operating system (`os.ReadFile`, `exec.LookPath`, `cmd.Run`, the session bus)
  is passed in as functions.
-/

namespace Systray

/-! ## Machine integers and strings -/

/-- A Go `string` / `[]byte`: its bytes in order. -/
abbrev GoString := List Nat

/-- The bytes of an ASCII literal of the source. -/
def str (s : String) : GoString := s.toList.map Char.toNat

/-- The Go conversion `C.int(x)`: keep the low 32 bits, read as two's complement. -/
def toCInt (x : Int) : Int := (x + 2 ^ 31) % 2 ^ 32 - 2 ^ 31

/-- The Go conversion `uint32(x)` of a C int: the low 32 bits, read unsigned. -/
def toUint32 (x : Int) : Nat := (x % 2 ^ 32).toNat

/-- Go `C.CString(s)`: a fresh C buffer holding the bytes of `s` and a terminating NUL. -/
def CString (s : GoString) : List Nat := s ++ [0]

/-- What a C reader of a `char*` sees: the bytes before the first NUL. -/
def cRead (buf : List Nat) : List Nat := buf.takeWhile (fun b => b != 0)

/-! ## The menu item and the native call surface -/

/-- Modelled from the spec: the `MenuItem` struct is declared in the generic part of
the package (not among the platform files); the spec gives it an identifier, a title,
a tooltip, the disabled / checked / checkable flags and an optional parent. -/
inductive MenuItem where
  | mk (id : Nat) (title tooltip : GoString) (disabled checked isCheckable : Bool)
      (parent : Option MenuItem)

namespace MenuItem

/-- Field `item.id`. -/
def id : MenuItem → Nat
  | mk i _ _ _ _ _ _ => i

/-- Field `item.title`. -/
def title : MenuItem → GoString
  | mk _ t _ _ _ _ _ => t

/-- Field `item.tooltip`. -/
def tooltip : MenuItem → GoString
  | mk _ _ t _ _ _ _ => t

/-- Field `item.disabled`. -/
def disabled : MenuItem → Bool
  | mk _ _ _ d _ _ _ => d

/-- Field `item.checked`. -/
def checked : MenuItem → Bool
  | mk _ _ _ _ c _ _ => c

/-- Field `item.isCheckable`. -/
def isCheckable : MenuItem → Bool
  | mk _ _ _ _ _ c _ => c

/-- Field `item.parent` (`none` is the nil pointer). -/
def parent : MenuItem → Option MenuItem
  | mk _ _ _ _ _ _ p => p

end MenuItem

/-- One call into the Objective-C layer, with its positional arguments. A `char*`
argument is recorded as the bytes found at the address it points to. -/
inductive NativeCall where
  | setIcon (cstr : List Nat) (length : Int) (template : Bool)
  | setMenuItemIcon (cstr : List Nat) (length : Int) (id : Int) (template : Bool)
  | add_or_update_menu_item (id parentID : Int) (title tooltip : List Nat)
      (disabled checked isCheckable : Int)
  | add_separator (id parent : Int)
  | hide_menu_item (id : Int)
  | show_menu_item (id : Int)
  | remove_menu_item (id : Int)
  | reset_menu
  deriving DecidableEq, Repr

/-- How a Go call ends: it returns a value, or a run-time panic unwinds through it. -/
inductive Outcome (α : Type) where
  | ret (a : α)
  | panic
  deriving DecidableEq, Repr

/-- The native calls a Go function made, and how it ended. -/
structure Run (α : Type) where
  calls : List NativeCall
  out : Outcome α
  deriving DecidableEq, Repr

/-- Sequencing: `k` runs only if the first part returned. -/
def Run.andThen {α β : Type} (r : Run α) (k : α → Run β) : Run β :=
  match r.out with
  | .panic => ⟨r.calls, .panic⟩
  | .ret a => ⟨r.calls ++ (k a).calls, (k a).out⟩

/-- The Go expression `&s[i]`: bounds-checked, `none` is the index-out-of-range panic;
otherwise the address, recorded as the bytes of `s` from index `i` on. -/
def addrOfIndex (s : List Nat) (i : Nat) : Option (List Nat) :=
  if i < s.length then some (s.drop i) else none

/-! ## `systray_darwin.go`: menu forwarding -/

/-- Go `addOrUpdateMenuItem(item)`. -/
def addOrUpdateMenuItem (item : MenuItem) : List NativeCall :=
  let disabled : Int := if item.disabled then 1 else 0
  let checked : Int := if item.checked then 1 else 0
  let isCheckable : Int := if item.isCheckable then 1 else 0
  let parentID : Nat :=
    match item.parent with
    | some p => p.id
    | none => 0
  [.add_or_update_menu_item (toCInt item.id) (toCInt parentID)
    (CString item.title) (CString item.tooltip) disabled checked isCheckable]

/-- Go `addSeparator(id, parent)`. -/
def addSeparator (id parent : Nat) : List NativeCall :=
  [.add_separator (toCInt id) (toCInt parent)]

/-- Go `hideMenuItem(item)`. -/
def hideMenuItem (item : MenuItem) : List NativeCall :=
  [.hide_menu_item (toCInt item.id)]

/-- Go `showMenuItem(item)`. -/
def showMenuItem (item : MenuItem) : List NativeCall :=
  [.show_menu_item (toCInt item.id)]

/-- Go `removeMenuItem(item)`. -/
def removeMenuItem (item : MenuItem) : List NativeCall :=
  [.remove_menu_item (toCInt item.id)]

/-- Go `resetMenu()`. -/
def resetMenu : List NativeCall := [.reset_menu]

/-! ## `systray_darwin.go`: upcalls from the native layer -/

/-- A call from the platform file into the generic part of the package. -/
inductive Upcall where
  | systrayReady
  | runSystrayExit
  | systrayMenuItemSelected (id : Nat)
  deriving DecidableEq, Repr

/-- Go `systray_ready()`. -/
def systray_ready : List Upcall := [.systrayReady]

/-- Go `systray_on_exit()`. -/
def systray_on_exit : List Upcall := [.runSystrayExit]

/-- Go `systray_menu_item_selected(cID)`. -/
def systray_menu_item_selected (cID : Int) : List Upcall :=
  [.systrayMenuItemSelected (toUint32 cID)]

/-- The menu item id argument of a native call, for the calls that take one. -/
def NativeCall.itemId : NativeCall → Option Int
  | .setMenuItemIcon _ _ id _ => some id
  | .add_or_update_menu_item id _ _ _ _ _ _ => some id
  | .add_separator id _ => some id
  | .hide_menu_item id => some id
  | .show_menu_item id => some id
  | .remove_menu_item id => some id
  | _ => none

/-! ## `systray_darwin.go`: icon setters -/

/-- A Go `error` value, by its message. The nil error is `none : Option GoError`. -/
abbrev GoError := String

/-- Go `fmt.Errorf(format, err)` for a format that ends in its single verb `%v`: the text
before the verb followed by the message of `err`. -/
def Errorf (textBeforeVerb : String) (err : GoError) : GoError := textBeforeVerb ++ err

/-- Go `SetTemplateIcon(templateIconBytes, regularIconBytes)` (package level). -/
def SetTemplateIcon (templateIconBytes _regularIconBytes : List Nat) : Run Unit :=
  match addrOfIndex templateIconBytes 0 with
  | none => ⟨[], .panic⟩
  | some cstr => ⟨[.setIcon cstr (toCInt templateIconBytes.length) true], .ret ()⟩

/-- Go `SetIcon(iconBytes)` (package level). -/
def SetIcon (iconBytes : List Nat) : Run Unit :=
  match addrOfIndex iconBytes 0 with
  | none => ⟨[], .panic⟩
  | some cstr => ⟨[.setIcon cstr (toCInt iconBytes.length) false], .ret ()⟩

/-- Go `SetIconFromFilePath(iconFilePath)` (package level); `readFile` is `os.ReadFile`. -/
def SetIconFromFilePath (readFile : GoString → Except GoError (List Nat))
    (iconFilePath : GoString) : Run (Option GoError) :=
  match readFile iconFilePath with
  | .error err => ⟨[], .ret (some (Errorf "failed to read icon file: " err))⟩
  | .ok bytes => (SetIcon bytes).andThen fun _ => ⟨[], .ret none⟩

namespace MenuItem

/-- Go `(item *MenuItem).SetIcon(iconBytes)`. -/
def SetIcon (item : MenuItem) (iconBytes : List Nat) : Run Unit :=
  match addrOfIndex iconBytes 0 with
  | none => ⟨[], .panic⟩
  | some cstr =>
    ⟨[.setMenuItemIcon cstr (toCInt iconBytes.length) (toCInt item.id) false], .ret ()⟩

/-- Go `(item *MenuItem).SetIconFromFilePath(iconFilePath)`; `readFile` is `os.ReadFile`. -/
def SetIconFromFilePath (readFile : GoString → Except GoError (List Nat))
    (item : MenuItem) (iconFilePath : GoString) : Run (Option GoError) :=
  match readFile iconFilePath with
  | .error err => ⟨[], .ret (some (Errorf "failed to read icon file: " err))⟩
  | .ok iconBytes => (item.SetIcon iconBytes).andThen fun _ => ⟨[], .ret none⟩

/-- Go `(item *MenuItem).SetTemplateIcon(templateIconBytes, regularIconBytes)`. -/
def SetTemplateIcon (item : MenuItem) (templateIconBytes _regularIconBytes : List Nat) :
    Run Unit :=
  match addrOfIndex templateIconBytes 0 with
  | none => ⟨[], .panic⟩
  | some cstr =>
    ⟨[.setMenuItemIcon cstr (toCInt templateIconBytes.length) (toCInt item.id) true],
      .ret ()⟩

end MenuItem

/-! ## `systray_darwin.go`: the menu-will-open signal -/

/-- The state of a Go channel of `struct{}` values, as far as a sender can tell:
its capacity, how many values sit in its buffer, how many goroutines are blocked
receiving from it, and whether it was closed. The capacity of `TrayOpenedCh` is set
where the channel is made, in the generic part of the package; it is a field here. -/
structure Chan where
  cap : Nat
  buffered : Nat
  recvWaiting : Nat
  closed : Bool
  deriving DecidableEq, Repr

/-- The states a Go channel can be in: the buffer holds at most `cap` values, and
receivers only wait while the buffer is empty. -/
def Chan.WellFormed (ch : Chan) : Prop :=
  ch.buffered ≤ ch.cap ∧ (0 < ch.recvWaiting → ch.buffered = 0)

instance (ch : Chan) : Decidable ch.WellFormed := by
  unfold Chan.WellFormed
  infer_instance

/-- How a `select` with one send case ends. -/
inductive SelectResult where
  /-- The value went straight to a waiting receiver. -/
  | handedOver (ch : Chan)
  /-- The value was put into the buffer. -/
  | enqueued (ch : Chan)
  /-- The `default` case ran. -/
  | tookDefault (ch : Chan)
  /-- No case was ready and there is no `default`: the goroutine parks. -/
  | blocked
  /-- Send on a closed channel. -/
  | panicked
  deriving DecidableEq, Repr

/-- The Go statement `select { case ch <- v: [default:] }`. A send can proceed at once
when a receiver is waiting or the buffer has room; otherwise the `default` case runs
if there is one. -/
def selectSend (hasDefault : Bool) (ch : Chan) : SelectResult :=
  if ch.closed then .panicked
  else if 0 < ch.recvWaiting then .handedOver { ch with recvWaiting := ch.recvWaiting - 1 }
  else if ch.buffered < ch.cap then .enqueued { ch with buffered := ch.buffered + 1 }
  else if hasDefault then .tookDefault ch
  else .blocked

/-- Go `systray_menu_will_open()`, on the state of `TrayOpenedCh`. -/
def systray_menu_will_open (TrayOpenedCh : Chan) : SelectResult :=
  selectSend true TrayOpenedCh

/-- The channel after the `select`, when the call came back. -/
def SelectResult.chan : SelectResult → Option Chan
  | .handedOver ch => some ch
  | .enqueued ch => some ch
  | .tookDefault ch => some ch
  | .blocked => none
  | .panicked => none

/-- How many signals the `select` passed on (to a receiver or into the buffer). -/
def SelectResult.sent : SelectResult → Nat
  | .handedOver _ => 1
  | .enqueued _ => 1
  | _ => 0

/-! ## The Go library functions behind the verb `%q`

The format verb `%q` of `fmt.Sprintf` on a string is `strconv.Quote`. Its table of
printable runes (`strconv.IsPrint`) is a parameter `isPrint` throughout. -/

/-- Go `utf8.RuneError`, the replacement character. -/
def RuneError : Nat := 0xFFFD

/-- Go `utf8.RuneSelf`: bytes below it are runes of their own. -/
def RuneSelf : Nat := 0x80

/-- Go `utf8.MaxRune`. -/
def MaxRune : Nat := 0x10FFFF

/-- The digits `lowerhex` of package `strconv`. -/
def lowerhex : List Nat := str "0123456789abcdef"

/-- Indexing `lowerhex[i]`. -/
def hexDigit (i : Nat) : Nat := lowerhex.getD i 0

/-- The table `first` of package `utf8`: for a leading byte, `0xF0` (ASCII), `0xF1`
(invalid), or the size of the encoding in the low three bits and the index of the
accept range of the second byte in the high four. -/
def first (b : Nat) : Nat :=
  if b < 0x80 then 0xF0
  else if b < 0xC2 then 0xF1
  else if b < 0xE0 then 0x02
  else if b = 0xE0 then 0x13
  else if b < 0xED then 0x03
  else if b = 0xED then 0x23
  else if b < 0xF0 then 0x03
  else if b = 0xF0 then 0x34
  else if b < 0xF4 then 0x04
  else if b = 0xF4 then 0x44
  else 0xF1

/-- The table `acceptRanges` of package `utf8`: the lowest and highest second byte. -/
def acceptRanges (i : Nat) : Nat × Nat :=
  match i with
  | 0 => (0x80, 0xBF)
  | 1 => (0xA0, 0xBF)
  | 2 => (0x80, 0x9F)
  | 3 => (0x90, 0xBF)
  | 4 => (0x80, 0x8F)
  | _ => (0, 0)

/-- Go `utf8.DecodeRuneInString(s)`: the first rune of `s` and its width in bytes;
`(RuneError, 1)` for an invalid encoding and `(RuneError, 0)` for the empty string. -/
def DecodeRuneInString (s : List Nat) : Nat × Nat :=
  match s with
  | [] => (RuneError, 0)
  | s0 :: t =>
    let x := first s0
    if 0xF0 ≤ x then
      if x = 0xF0 then (s0, 1) else (RuneError, 1)
    else
      let sz := x &&& 7
      let accept := acceptRanges (x >>> 4)
      if s.length < sz then (RuneError, 1)
      else
        match t with
        | [] => (RuneError, 1)
        | s1 :: t1 =>
          if s1 < accept.1 ∨ accept.2 < s1 then (RuneError, 1)
          else if sz ≤ 2 then (((s0 &&& 0x1F) <<< 6) ||| (s1 &&& 0x3F), 2)
          else
            match t1 with
            | [] => (RuneError, 1)
            | s2 :: t2 =>
              if s2 < 0x80 ∨ 0xBF < s2 then (RuneError, 1)
              else if sz ≤ 3 then
                (((s0 &&& 0x0F) <<< 12) ||| ((s1 &&& 0x3F) <<< 6) ||| (s2 &&& 0x3F), 3)
              else
                match t2 with
                | [] => (RuneError, 1)
                | s3 :: _ =>
                  if s3 < 0x80 ∨ 0xBF < s3 then (RuneError, 1)
                  else
                    (((s0 &&& 0x07) <<< 18) ||| ((s1 &&& 0x3F) <<< 12)
                      ||| ((s2 &&& 0x3F) <<< 6) ||| (s3 &&& 0x3F), 4)

/-- Go `utf8.AppendRune(nil, r)`: the UTF-8 encoding of `r`; a surrogate or a value
above `MaxRune` is encoded as `RuneError`. The conversion `byte(x)` is `x % 256`. -/
def AppendRune (r : Nat) : List Nat :=
  if r ≤ 0x7F then [r % 256]
  else if r ≤ 0x7FF then [0xC0 ||| ((r >>> 6) % 256), 0x80 ||| ((r % 256) &&& 0x3F)]
  else
    let r := if MaxRune < r ∨ (0xD800 ≤ r ∧ r ≤ 0xDFFF) then RuneError else r
    if r ≤ 0xFFFF then
      [0xE0 ||| ((r >>> 12) % 256), 0x80 ||| (((r >>> 6) % 256) &&& 0x3F),
        0x80 ||| ((r % 256) &&& 0x3F)]
    else
      [0xF0 ||| ((r >>> 18) % 256), 0x80 ||| (((r >>> 12) % 256) &&& 0x3F),
        0x80 ||| (((r >>> 6) % 256) &&& 0x3F), 0x80 ||| ((r % 256) &&& 0x3F)]

/-- Go `utf8.ValidRune(r)` for a non-negative rune. -/
def ValidRune (r : Nat) : Bool :=
  r < 0xD800 || (0xDFFF < r && r ≤ MaxRune)

/-- Go `strconv.appendEscapedRune(nil, r, quote, false, false)`: what one rune becomes
inside the quotes. -/
def appendEscapedRune (isPrint : Nat → Bool) (r : Nat) (quote : Nat) : List Nat :=
  if r = quote ∨ r = 92 then [92, r % 256]
  else if isPrint r then AppendRune r
  else if r = 7 then str "\\a"
  else if r = 8 then str "\\b"
  else if r = 12 then str "\\f"
  else if r = 10 then str "\\n"
  else if r = 13 then str "\\r"
  else if r = 9 then str "\\t"
  else if r = 11 then str "\\v"
  else if r < 32 ∨ r = 0x7F then
    str "\\x" ++ [hexDigit ((r % 256) >>> 4), hexDigit ((r % 256) &&& 0xF)]
  else
    let r := if ValidRune r then r else 0xFFFD
    if r < 0x10000 then
      str "\\u" ++ [12, 8, 4, 0].map fun s => hexDigit ((r >>> s) &&& 0xF)
    else
      str "\\U" ++ [28, 24, 20, 16, 12, 8, 4, 0].map fun s => hexDigit ((r >>> s) &&& 0xF)

/-- The loop of `strconv.appendQuotedWith`: what the bytes of `s` become between the
quotes. The Go loop continues with `s[width:]`, which is the tail from `width - 1`
on, the width being at least one. -/
def quoteBody (isPrint : Nat → Bool) (quote : Nat) : List Nat → List Nat
  | [] => []
  | s0 :: t =>
    let rw : Nat × Nat := if RuneSelf ≤ s0 then DecodeRuneInString (s0 :: t) else (s0, 1)
    (if rw.2 = 1 ∧ rw.1 = RuneError then
        str "\\x" ++ [hexDigit (s0 >>> 4), hexDigit (s0 &&& 0xF)]
      else appendEscapedRune isPrint rw.1 quote)
      ++ quoteBody isPrint quote (t.drop (rw.2 - 1))
termination_by s => s.length
decreasing_by
  simp only [List.length_drop, List.length_cons]
  omega

/-- Go `strconv.Quote(s)`, which is what `%q` formats a string with: the escaped
bytes of `s` between two double quotes. -/
def Quote (isPrint : Nat → Bool) (s : GoString) : GoString :=
  [34] ++ quoteBody isPrint 34 s ++ [34]

/-! ## Notifications: `ShowMessage` on macOS and on Linux -/

/-- An argument of a D-Bus method call, with its Go type. -/
inductive DBusValue where
  | string (s : GoString)
  | uint32 (n : Nat)
  | int32 (i : Int)
  | stringSlice (l : List GoString)
  | variantMap (entries : List (GoString × GoString))
  deriving DecidableEq, Repr

/-- What `ShowMessage` does to the outside world, in order. -/
inductive Event where
  /-- A line written with `log.Printf` / `log.Errorf`: the text before `%v`, and the error. -/
  | log (text : String) (err : GoError)
  /-- The method `cmd.Run()` on `exec.Command(name, args...)`. -/
  | run (name : GoString) (args : List GoString)
  /-- The method `conn.Object(dest, path).Call(method, flags, args...)`. -/
  | busCall (dest path method : String) (flags : Nat) (args : List DBusValue)
  deriving DecidableEq, Repr

/-- The events of a call of `ShowMessage`, and how it ended. -/
structure Shown where
  events : List Event
  out : Outcome Unit
  deriving DecidableEq, Repr

namespace Darwin

/-- Go `ShowMessage(appName, title, msg)` of `systray_darwin.go`. `LookPath` is
`exec.LookPath` and `CmdRun name args` is `exec.Command(name, args...).Run()`, with
`none` for the nil error. -/
def ShowMessage (isPrint : Nat → Bool) (LookPath : GoString → Except GoError GoString)
    (CmdRun : GoString → List GoString → Option GoError)
    (appName title msg : GoString) : Shown :=
  match LookPath (str "osascript") with
  | .error err =>
    ⟨[.log "systray error: unable to locate osascript executable: " err], .ret ()⟩
  | .ok osa =>
    let script := str "display notification " ++ Quote isPrint msg ++ str " with title "
      ++ Quote isPrint appName ++ str " subtitle " ++ Quote isPrint title
    match CmdRun osa [str "-e", script] with
    | some err =>
      ⟨[.run osa [str "-e", script],
        .log "systray error: unable to send desktop notification: " err], .ret ()⟩
    | none => ⟨[.run osa [str "-e", script]], .ret ()⟩

end Darwin

namespace Linux

/-- Go `ShowMessage(appName, title, msg)` of `systray_linux.go`. `SessionBus` is the
result of `dbus.SessionBus()` (the connection itself carries no data here) and
`Call e` is the `Err` field of the call `e` made on the bus object. -/
def ShowMessage (SessionBus : Except GoError Unit) (Call : Event → Option GoError)
    (appName title msg : GoString) : Shown :=
  match SessionBus with
  | .error err => ⟨[.log "Unable to obtain dbus session: " err], .ret ()⟩
  | .ok _ =>
    let call := Event.busCall "org.freedesktop.Notifications"
      "/org/freedesktop/Notifications" "org.freedesktop.Notifications.Notify" 0
      [.string appName, .uint32 0, .string [], .string title, .string msg,
        .stringSlice [], .variantMap [], .int32 (-1)]
    match Call call with
    | some err => ⟨[call, .log "Unable to send desktop notification: " err], .ret ()⟩
    | none => ⟨[call], .ret ()⟩

end Linux

/-- Whether an event starts a process. -/
def Event.isRun : Event → Bool
  | .run _ _ => true
  | _ => false

/-- Whether an event is a method call on the bus. -/
def Event.isBusCall : Event → Bool
  | .busCall _ _ _ _ _ => true
  | _ => false

/-! ## Reading a script back: the double-quoted literal

These definitions are the reading side used to state that a quoted value stays one
literal: a reader of a double-quoted literal in which the backslash escapes the
character after it and an unescaped double quote ends the literal. -/

/-- Read a literal whose opening quote has been consumed; `esc` tells whether the
previous character was an unconsumed backslash. Returns the raw text of the literal
and what follows its closing quote; `none` if the literal never closes. -/
def readLiteral (esc : Bool) : List Nat → Option (List Nat × List Nat)
  | [] => none
  | c :: rest =>
    if esc then (readLiteral false rest).map fun p => (c :: p.1, p.2)
    else if c = 92 then (readLiteral true rest).map fun p => (c :: p.1, p.2)
    else if c = 34 then some ([], rest)
    else (readLiteral false rest).map fun p => (c :: p.1, p.2)

/-- Drop the expected text `pre` from the front of `s`, if it is there. -/
def expect (pre s : List Nat) : Option (List Nat) :=
  if pre.isPrefixOf s then some (s.drop pre.length) else none

/-- Read a whole script of the shape
`display notification "..." with title "..." subtitle "..."` and return the raw
texts of its three literals; `none` if the script has any other shape. -/
def readNotification (script : List Nat) : Option (List Nat × List Nat × List Nat) :=
  (expect (str "display notification \"") script).bind fun s1 =>
  (readLiteral false s1).bind fun p1 =>
  (expect (str " with title \"") p1.2).bind fun s2 =>
  (readLiteral false s2).bind fun p2 =>
  (expect (str " subtitle \"") p2.2).bind fun s3 =>
  (readLiteral false s3).bind fun p3 =>
  if p3.2 = [] then some (p1.1, p2.1, p3.1) else none

/-- Text without a double quote or a backslash. -/
def Plain (l : List Nat) : Prop := ∀ c ∈ l, c ≠ 34 ∧ c ≠ 92

/-- A piece of text that `readLiteral` reads through, inside a literal, without
ending the literal and without leaving a backslash pending. -/
def ReadsThrough (chunk : List Nat) : Prop :=
  ∀ rest, readLiteral false (chunk ++ rest) =
    (readLiteral false rest).map fun p => (chunk ++ p.1, p.2)

/-! ## Reading a literal back: what text it denotes

The reading side of `%q`: plain bytes stand for themselves, a backslash starts one of
the escapes that `strconv.Quote` writes. These definitions are used to state which
value a quoted literal denotes. -/

/-- The value with a backslash put before each double quote and each backslash, and
nothing else changed. -/
def backslashEscaped : List Nat → List Nat
  | [] => []
  | b :: t => (if b = 34 ∨ b = 92 then [92, b] else [b]) ++ backslashEscaped t

/-- The Go conversion `string(runes)` for valid runes: their UTF-8 encodings, one
after the other. -/
def encodeRunes : List Nat → List Nat
  | [] => []
  | r :: t => AppendRune r ++ encodeRunes t

/-- The byte a one-character escape stands for: the escaped quote and backslash, and
the escapes a, b, f, n, r, t, v. -/
def unescapeSimple (e : Nat) : Option Nat :=
  if e = 34 then some 34
  else if e = 92 then some 92
  else if e = 97 then some 7
  else if e = 98 then some 8
  else if e = 102 then some 12
  else if e = 110 then some 10
  else if e = 114 then some 13
  else if e = 116 then some 9
  else if e = 118 then some 11
  else none

/-- The value of one hexadecimal digit, in either case. -/
def hexVal (c : Nat) : Option Nat :=
  if 48 ≤ c ∧ c ≤ 57 then some (c - 48)
  else if 97 ≤ c ∧ c ≤ 102 then some (c - 87)
  else if 65 ≤ c ∧ c ≤ 70 then some (c - 55)
  else none

/-- The number written by a sequence of hexadecimal digits, most significant first. -/
def hexNumber : List Nat → Option Nat
  | [] => some 0
  | c :: t => (hexVal c).bind fun d => (hexNumber t).map fun v => d * 16 ^ t.length + v

/-- The bytes denoted by the text between the quotes of a double-quoted Go literal:
a plain byte denotes itself; a backslash followed by a one-character escape denotes
one byte; `\x` and two hexadecimal digits denote that byte; `\u` and four or `\U` and
eight hexadecimal digits denote the UTF-8 encoding of that rune, which must be a valid
rune. `none` for an unescaped double quote, a dangling backslash or any other escape. -/
def unquoteBody : List Nat → Option (List Nat)
  | [] => some []
  | [c] => if c = 34 ∨ c = 92 then none else some [c]
  | c :: e :: rest =>
    if c = 34 then none
    else if c ≠ 92 then (unquoteBody (e :: rest)).map fun l => c :: l
    else
      match unescapeSimple e with
      | some b => (unquoteBody rest).map fun l => b :: l
      | none =>
        let n := if e = 120 then 2 else if e = 117 then 4 else if e = 85 then 8 else 0
        if n = 0 ∨ rest.length < n then none
        else
          (hexNumber (rest.take n)).bind fun v =>
            if e = 120 then (unquoteBody (rest.drop n)).map fun l => v :: l
            else if ValidRune v then (unquoteBody (rest.drop n)).map fun l => AppendRune v ++ l
            else none
termination_by l => l.length
decreasing_by
  all_goals simp only [List.length_drop, List.length_cons]
  all_goals omega

/-- A piece of quoted text that `unquoteBody` reads as the bytes `bytes`, whatever
quoted text follows it. -/
def Denotes (chunk bytes : List Nat) : Prop :=
  ∀ rest, unquoteBody (chunk ++ rest) = (unquoteBody rest).map fun l => bytes ++ l

/-- Read a whole script of the shape
`display notification "..." with title "..." subtitle "..."` and return the three
values its literals denote, in the order they stand in the script. -/
def readValues (script : List Nat) : Option (List Nat × List Nat × List Nat) :=
  (readNotification script).bind fun p =>
  (unquoteBody p.1).bind fun v1 =>
  (unquoteBody p.2.1).bind fun v2 =>
  (unquoteBody p.2.2).map fun v3 => (v1, v2, v3)

/-! ## The native menu behind `add_or_update_menu_item` -/

/-- One entry of the native menu. -/
structure NativeEntry where
  id : Int
  parentID : Int
  title : List Nat
  tooltip : List Nat
  disabled : Int
  checked : Int
  isCheckable : Int
  hidden : Bool
  deriving DecidableEq, Repr

/-- Modelled from the spec: the Objective-C function `add_or_update_menu_item` of the
native layer is not among the platform files. The spec: the call "is idempotent by
id - calling it again with the same id updates title/tooltip/flags rather than
creating a duplicate"; an id not yet in the menu gets a new entry. -/
def native_add_or_update_menu_item (menu : List NativeEntry) (id parentID : Int)
    (title tooltip : List Nat) (disabled checked isCheckable : Int) : List NativeEntry :=
  if menu.any (fun e => e.id = id) then
    menu.map fun e =>
      if e.id = id then
        { e with title := title, tooltip := tooltip, disabled := disabled,
                 checked := checked, isCheckable := isCheckable }
      else e
  else
    menu ++ [⟨id, parentID, title, tooltip, disabled, checked, isCheckable, false⟩]

/-- Modelled from the spec: the effect of one native call on the menu item entries
of the native layer (whose code is not among the platform files). The spec names
`hide(item)`, `show(item)`, `remove(item)` and `resetMenu()` ("clears the entire
native menu"); icon calls and separators leave the item entries as they are. -/
def nativeStep (menu : List NativeEntry) : NativeCall → List NativeEntry
  | .add_or_update_menu_item id parentID title tooltip disabled checked isCheckable =>
    native_add_or_update_menu_item menu id parentID title tooltip disabled checked isCheckable
  | .hide_menu_item id => menu.map fun e => if e.id = id then { e with hidden := true } else e
  | .show_menu_item id => menu.map fun e => if e.id = id then { e with hidden := false } else e
  | .remove_menu_item id => menu.filter fun e => e.id ≠ id
  | .reset_menu => []
  | _ => menu

/-- The native menu after a sequence of native calls. -/
def nativeRun (menu : List NativeEntry) (calls : List NativeCall) : List NativeEntry :=
  calls.foldl nativeStep menu

/-! ## Basic facts about the integer conversions -/

theorem toCInt_of_small (n : Nat) (h : n < 2 ^ 31) : toCInt n = n := by
  unfold toCInt
  omega

theorem toCInt_of_large (n : Nat) (h1 : 2 ^ 31 ≤ n) (h2 : n < 2 ^ 32) :
    toCInt n = (n : Int) - 2 ^ 32 := by
  unfold toCInt
  omega

theorem toUint32_toCInt (n : Nat) (h : n < 2 ^ 32) : toUint32 (toCInt n) = n := by
  unfold toUint32 toCInt
  omega

theorem toCInt_eq_zero_iff (n : Nat) (h : n < 2 ^ 32) : toCInt n = 0 ↔ n = 0 := by
  unfold toCInt
  omega

theorem cRead_CString (s : GoString) (h : ∀ b ∈ s, b ≠ 0) : cRead (CString s) = s := by
  induction s with
  | nil => simp [cRead, CString]
  | cons b t ih =>
    have hb : b ≠ 0 := h b (List.mem_cons_self _ _)
    have ht : ∀ c ∈ t, c ≠ 0 := fun c hc => h c (List.mem_cons_of_mem _ hc)
    have := ih ht
    have hb2 : (b != 0) = true := by simp [hb]
    simp only [cRead, CString] at this ⊢
    simp [List.takeWhile, hb2, this]

/-! ## Menu forwarding: flags, ids and parents -/

/-- C2: for every menu item, whatever its id, texts and parent, and for each of the
eight combinations of `disabled`, `checked` and `isCheckable`, `addOrUpdateMenuItem`
makes the one call `add_or_update_menu_item` whose three flag arguments are 1 where
the boolean of the same name is true and 0 where it is false; each flag argument is
an expression in its own boolean alone, so flipping one boolean changes that
argument and no other. -/
theorem addOrUpdateMenuItem_flags (id : Nat) (title tooltip : GoString)
    (disabled checked isCheckable : Bool) (parent : Option MenuItem) :
    ∃ cid pid t tt,
      addOrUpdateMenuItem (.mk id title tooltip disabled checked isCheckable parent) =
        [.add_or_update_menu_item cid pid t tt
          (if disabled then 1 else 0) (if checked then 1 else 0)
          (if isCheckable then 1 else 0)] ∧
      ∀ d c k : Bool,
        addOrUpdateMenuItem (.mk id title tooltip d c k parent) =
          [.add_or_update_menu_item cid pid t tt
            (if d then 1 else 0) (if c then 1 else 0) (if k then 1 else 0)] := by
  refine ⟨toCInt id, toCInt ((match parent with | some p => p.id | none => 0 : Nat) : Int),
    CString title, CString tooltip, ?_, ?_⟩
  · simp [addOrUpdateMenuItem, MenuItem.id, MenuItem.title, MenuItem.tooltip,
      MenuItem.disabled, MenuItem.checked, MenuItem.isCheckable, MenuItem.parent]
  · intro d c k
    simp [addOrUpdateMenuItem, MenuItem.id, MenuItem.title, MenuItem.tooltip,
      MenuItem.disabled, MenuItem.checked, MenuItem.isCheckable, MenuItem.parent]

/-- C9: for every item whose id is a `uint32`, each of `addOrUpdateMenuItem`,
`hideMenuItem`, `showMenuItem` and `removeMenuItem` makes one native call, whose id
argument is `C.int(item.id)` (negative from `2 ^ 31` on); handing that argument back to
`systray_menu_item_selected` makes exactly one call of `systrayMenuItemSelected`, with
the original id: `uint32(C.int(id)) = id`. -/
theorem menu_item_id_round_trip (item : MenuItem) (h : item.id < 2 ^ 32) :
    (∀ calls ∈ [addOrUpdateMenuItem item, hideMenuItem item, showMenuItem item,
        removeMenuItem item],
      ∃ call, calls = [call] ∧ call.itemId = some (toCInt item.id)) ∧
    systray_menu_item_selected (toCInt item.id) = [.systrayMenuItemSelected item.id] ∧
    toUint32 (toCInt item.id) = item.id ∧
    (2 ^ 31 ≤ item.id → toCInt item.id < 0) := by
  refine ⟨?_, ?_, toUint32_toCInt _ h, ?_⟩
  · intro calls hc
    simp only [List.mem_cons, List.mem_singleton, List.not_mem_nil, or_false] at hc
    rcases hc with rfl | rfl | rfl | rfl <;>
      simp [addOrUpdateMenuItem, hideMenuItem, showMenuItem, removeMenuItem,
        NativeCall.itemId]
  · simp [systray_menu_item_selected, toUint32_toCInt _ h]
  · intro h2
    rw [toCInt_of_large _ h2 h]
    omega

/-- Witness for C9 at the id `2 ^ 31 + 5`, which is `-2147483643` as a C int. -/
theorem menu_item_id_round_trip_witness :
    systray_menu_item_selected (toCInt 2147483653) = [.systrayMenuItemSelected 2147483653] ∧
    toCInt 2147483653 < 0 :=
  have h := menu_item_id_round_trip (.mk 2147483653 [] [] false false false none)
    (by simp [MenuItem.id])
  ⟨h.2.1, h.2.2.2 (by simp [MenuItem.id])⟩

/-- C10: for every menu item with `uint32` ids that are non-zero (the data model
requirement), `addOrUpdateMenuItem` makes the one call `add_or_update_menu_item`
with parent id 0 when the item has no parent and with `C.int(parent.id)` when it
has one, so the parent id argument is 0 if and only if the item is top-level; the
id goes as `C.int(item.id)`, which converts back to `item.id`, and title and tooltip go
as the C strings of `item.title` and `item.tooltip`: their bytes, then the NUL. -/
theorem addOrUpdateMenuItem_parent (id : Nat) (title tooltip : GoString)
    (disabled checked isCheckable : Bool) (parent : Option MenuItem)
    (hid : id < 2 ^ 32) (hparent : ∀ p, parent = some p → p.id ≠ 0 ∧ p.id < 2 ^ 32) :
    ∃ pid,
      addOrUpdateMenuItem (.mk id title tooltip disabled checked isCheckable parent) =
        [.add_or_update_menu_item (toCInt id) pid (title ++ [0]) (tooltip ++ [0])
          (if disabled then 1 else 0) (if checked then 1 else 0)
          (if isCheckable then 1 else 0)] ∧
      (parent = none → pid = 0) ∧
      (∀ p, parent = some p → pid = toCInt p.id ∧ toUint32 pid = p.id) ∧
      (pid = 0 ↔ parent = none) ∧
      toUint32 (toCInt id) = id := by
  cases parent with
  | none =>
    refine ⟨0, ?_, fun _ => rfl, ?_, by simp, toUint32_toCInt _ hid⟩
    · simp [addOrUpdateMenuItem, MenuItem.id, MenuItem.title, MenuItem.tooltip,
        MenuItem.disabled, MenuItem.checked, MenuItem.isCheckable,
        MenuItem.parent, CString, toCInt]
    · intro p hp
      cases hp
  | some q =>
    have hq := hparent q rfl
    refine ⟨toCInt q.id, ?_, ?_, ?_, ?_, toUint32_toCInt _ hid⟩
    · simp [addOrUpdateMenuItem, MenuItem.id, MenuItem.title, MenuItem.tooltip,
        MenuItem.disabled, MenuItem.checked, MenuItem.isCheckable,
        MenuItem.parent, CString]
    · intro hn
      cases hn
    · intro p hp
      cases hp
      exact ⟨rfl, toUint32_toCInt _ hq.2⟩
    · simp [toCInt_eq_zero_iff _ hq.2, hq.1]

/-- Witness for C10: a child with id 7 of the item with id 3 is added under parent 3. -/
theorem addOrUpdateMenuItem_parent_witness :
    ∃ pid,
      addOrUpdateMenuItem (.mk 7 [65] [66] false true true
          (some (.mk 3 [] [] false false false none))) =
        [.add_or_update_menu_item (toCInt 7) pid ([65] ++ [0]) ([66] ++ [0])
          (if false then 1 else 0) (if true then 1 else 0) (if true then 1 else 0)] ∧
      (some (MenuItem.mk 3 [] [] false false false none) = none → pid = 0) ∧
      (∀ p, some (MenuItem.mk 3 [] [] false false false none) = some p →
        pid = toCInt p.id ∧ toUint32 pid = p.id) ∧
      (pid = 0 ↔ some (MenuItem.mk 3 [] [] false false false none) = none) ∧
      toUint32 (toCInt 7) = 7 :=
  addOrUpdateMenuItem_parent 7 [65] [66] false true true
    (some (.mk 3 [] [] false false false none)) (by norm_num)
    (by
      intro p hp
      cases hp
      simp [MenuItem.id])

/-! ## The menu-will-open signal -/

/-- C3: in every state of an open channel `TrayOpenedCh` (any capacity, buffer empty
or holding signals, receivers waiting or not), `systray_menu_will_open` comes back
(it neither parks nor panics). If a receiver is waiting the signal is handed to
it; else if the buffer has room the signal is enqueued; in both cases exactly one
signal is passed on. Otherwise (the buffer is full: earlier signals are
unconsumed, or there is no buffer and no receiver) the occurrence is dropped and the
channel is left exactly as it was. The buffer never holds more than the capacity,
so at most one signal is pending on a single-slot channel. -/
theorem systray_menu_will_open_never_blocks (ch : Chan) (hwf : ch.WellFormed)
    (hopen : ch.closed = false) :
    systray_menu_will_open ch ≠ .blocked ∧
    systray_menu_will_open ch ≠ .panicked ∧
    (0 < ch.recvWaiting →
      systray_menu_will_open ch =
        .handedOver { ch with recvWaiting := ch.recvWaiting - 1 }) ∧
    (ch.recvWaiting = 0 → ch.buffered < ch.cap →
      systray_menu_will_open ch = .enqueued { ch with buffered := ch.buffered + 1 }) ∧
    (ch.recvWaiting = 0 → ch.buffered = ch.cap →
      systray_menu_will_open ch = .tookDefault ch) ∧
    ((0 < ch.recvWaiting ∨ ch.buffered < ch.cap) ↔ (systray_menu_will_open ch).sent = 1) ∧
    ∃ ch2, (systray_menu_will_open ch).chan = some ch2 ∧ ch2.WellFormed ∧
      ch2.cap = ch.cap ∧ ch2.buffered ≤ ch2.cap ∧ (ch.cap ≤ 1 → ch2.buffered ≤ 1) ∧
      ch2.buffered + (ch.recvWaiting - ch2.recvWaiting) =
        ch.buffered + (systray_menu_will_open ch).sent := by
  obtain ⟨cap, buffered, recvWaiting, closed⟩ := ch
  simp only [Chan.WellFormed] at hwf
  simp only at hopen
  subst hopen
  obtain ⟨h1, h2⟩ := hwf
  by_cases hr : 0 < recvWaiting
  · have hb := h2 hr
    subst hb
    simp [systray_menu_will_open, selectSend, hr, SelectResult.sent, SelectResult.chan,
      Chan.WellFormed]
    omega
  · have hr0 : recvWaiting = 0 := by omega
    subst hr0
    by_cases hb : buffered < cap
    · simp [systray_menu_will_open, selectSend, hb, SelectResult.sent, SelectResult.chan,
        Chan.WellFormed]
      omega
    · have hb2 : buffered = cap := by omega
      subst hb2
      simp [systray_menu_will_open, selectSend, SelectResult.sent, SelectResult.chan,
        Chan.WellFormed]

/-- Witness for C3: on a single-slot channel that still holds the previous signal,
the occurrence is dropped and the channel is unchanged. -/
theorem systray_menu_will_open_never_blocks_witness :
    systray_menu_will_open ⟨1, 1, 0, false⟩ = .tookDefault ⟨1, 1, 0, false⟩ :=
  (systray_menu_will_open_never_blocks ⟨1, 1, 0, false⟩ (by decide) rfl).2.2.2.2.1 rfl rfl

/-! ## Notifications: the transport -/

/-- C5: `ShowMessage` returns normally in every case and sends nothing when the
transport is missing. On macOS, when `exec.LookPath("osascript")` fails, the only
event is the log line: no command is built or run. On Linux, when
`dbus.SessionBus()` fails, the only event is the log line: no bus call is made.
When the command run or the bus call itself fails, the failure is logged after
the attempt and `ShowMessage` returns all the same. -/
theorem ShowMessage_unavailable_transport (isPrint : Nat → Bool)
    (LookPath : GoString → Except GoError GoString)
    (CmdRun : GoString → List GoString → Option GoError)
    (Call : Event → Option GoError) (appName title msg : GoString) (e1 e2 : GoError)
    (hPath : LookPath (str "osascript") = .error e1) :
    (Darwin.ShowMessage isPrint LookPath CmdRun appName title msg).out = .ret () ∧
    (Darwin.ShowMessage isPrint LookPath CmdRun appName title msg).events =
      [.log "systray error: unable to locate osascript executable: " e1] ∧
    (∀ ev ∈ (Darwin.ShowMessage isPrint LookPath CmdRun appName title msg).events,
      ev.isRun = false) ∧
    (Linux.ShowMessage (.error e2) Call appName title msg).out = .ret () ∧
    (Linux.ShowMessage (.error e2) Call appName title msg).events =
      [.log "Unable to obtain dbus session: " e2] ∧
    (∀ ev ∈ (Linux.ShowMessage (.error e2) Call appName title msg).events,
      ev.isBusCall = false) ∧
    (∀ (LookPath2 : GoString → Except GoError GoString)
        (CmdRun2 : GoString → List GoString → Option GoError)
        (bus : Except GoError Unit) (Call2 : Event → Option GoError),
      (Darwin.ShowMessage isPrint LookPath2 CmdRun2 appName title msg).out = .ret () ∧
      (Linux.ShowMessage bus Call2 appName title msg).out = .ret ()) ∧
    (∀ osa, ∃ script,
      (Darwin.ShowMessage isPrint (fun _ => .ok osa) (fun _ _ => some e1)
          appName title msg).events =
        [.run osa [str "-e", script],
          .log "systray error: unable to send desktop notification: " e1]) ∧
    (∃ call, call.isBusCall = true ∧
      (Linux.ShowMessage (.ok ()) (fun _ => some e2) appName title msg).events =
        [call, .log "Unable to send desktop notification: " e2]) := by
  have hD : ∀ (LookPath2 : GoString → Except GoError GoString)
      (CmdRun2 : GoString → List GoString → Option GoError),
      (Darwin.ShowMessage isPrint LookPath2 CmdRun2 appName title msg).out = .ret () := by
    intro L R
    unfold Darwin.ShowMessage
    cases L (str "osascript") with
    | error e => rfl
    | ok osa =>
      simp only
      split <;> rfl
  have hL : ∀ (bus : Except GoError Unit) (Call2 : Event → Option GoError),
      (Linux.ShowMessage bus Call2 appName title msg).out = .ret () := by
    intro b C
    unfold Linux.ShowMessage
    cases b with
    | error e => rfl
    | ok u =>
      simp only
      split <;> rfl
  refine ⟨hD _ _, ?_, ?_, hL _ _, ?_, ?_, fun L R b C => ⟨hD L R, hL b C⟩, ?_, ?_⟩
  · simp [Darwin.ShowMessage, hPath]
  · simp [Darwin.ShowMessage, hPath, Event.isRun]
  · simp [Linux.ShowMessage]
  · simp [Linux.ShowMessage, Event.isBusCall]
  · intro osa
    exact ⟨_, rfl⟩
  · exact ⟨Event.busCall "org.freedesktop.Notifications" "/org/freedesktop/Notifications"
      "org.freedesktop.Notifications.Notify" 0
      [.string appName, .uint32 0, .string [], .string title, .string msg,
        .stringSlice [], .variantMap [], .int32 (-1)], rfl, rfl⟩

/-- Witness for C5, with a search path on which nothing is found. -/
theorem ShowMessage_unavailable_transport_witness :
    (Darwin.ShowMessage (fun _ => true) (fun _ => .error "not found") (fun _ _ => none)
      [65] [66] [67]).events =
      [.log "systray error: unable to locate osascript executable: " "not found"] :=
  (ShowMessage_unavailable_transport (fun _ => true) (fun _ => .error "not found")
    (fun _ _ => none) (fun _ => none) [65] [66] [67] "not found" "no bus" rfl).2.1

/-- C6: for every `appName`, `title` and `msg`, and whether or not the call then
succeeds, `ShowMessage` on Linux with a session bus makes exactly one bus call: on
destination `org.freedesktop.Notifications`, object path
`/org/freedesktop/Notifications`, method `Notify` of the interface
`org.freedesktop.Notifications`, flags 0, with the arguments, in order, `appName`,
`uint32(0)` (replaces_id), the empty string (app_icon), `title` (summary), `msg`
(body), an empty string slice (actions), an empty map (hints) and `int32(-1)`
(expire_timeout: the call asks for no expiry time of its own). -/
theorem ShowMessage_linux_notify_arguments (Call : Event → Option GoError)
    (appName title msg : GoString) :
    (Linux.ShowMessage (.ok ()) Call appName title msg).events.filter Event.isBusCall =
      [.busCall "org.freedesktop.Notifications" "/org/freedesktop/Notifications"
        "org.freedesktop.Notifications.Notify" 0
        [.string appName, .uint32 0, .string [], .string title, .string msg,
          .stringSlice [], .variantMap [], .int32 (-1)]] := by
  unfold Linux.ShowMessage
  simp only
  split <;> simp [Event.isBusCall]


/-! ## Icon setters -/

theorem addrOfIndex_zero (buf : List Nat) (hne : buf ≠ []) : addrOfIndex buf 0 = some buf := by
  cases buf with
  | nil => exact absurd rfl hne
  | cons b t => simp [addrOfIndex]

theorem SetIcon_of_ne_nil (buf : List Nat) (hne : buf ≠ []) :
    SetIcon buf = ⟨[.setIcon buf (toCInt buf.length) false], .ret ()⟩ := by
  simp [SetIcon, addrOfIndex_zero buf hne]

theorem MenuItem_SetIcon_of_ne_nil (item : MenuItem) (buf : List Nat) (hne : buf ≠ []) :
    item.SetIcon buf =
      ⟨[.setMenuItemIcon buf (toCInt buf.length) (toCInt item.id) false], .ret ()⟩ := by
  simp [MenuItem.SetIcon, addrOfIndex_zero buf hne]

/-- C8, as amended: for every non-empty byte buffer of fewer than `2 ^ 31` bytes,
taking the address of the first element is in bounds and each macOS icon setter
makes one native call with the buffer from its first element on, its exact length
and the template flag: `SetIcon` and `MenuItem.SetIcon` with flag false,
`SetTemplateIcon` and `MenuItem.SetTemplateIcon` with the template bytes (the regular
bytes are ignored) and flag true, the menu-item variants also with `C.int(item.id)`.
For a zero-length buffer each setter panics and makes no native call. -/
theorem icon_setters_forward (item : MenuItem) (buf regular : List Nat)
    (hne : buf ≠ []) (hlen : buf.length < 2 ^ 31) :
    addrOfIndex buf 0 = some buf ∧
    SetIcon buf = ⟨[.setIcon buf buf.length false], .ret ()⟩ ∧
    item.SetIcon buf =
      ⟨[.setMenuItemIcon buf buf.length (toCInt item.id) false], .ret ()⟩ ∧
    SetTemplateIcon buf regular = ⟨[.setIcon buf buf.length true], .ret ()⟩ ∧
    item.SetTemplateIcon buf regular =
      ⟨[.setMenuItemIcon buf buf.length (toCInt item.id) true], .ret ()⟩ ∧
    SetIcon [] = ⟨[], .panic⟩ ∧
    item.SetIcon [] = ⟨[], .panic⟩ ∧
    SetTemplateIcon [] regular = ⟨[], .panic⟩ ∧
    item.SetTemplateIcon [] regular = ⟨[], .panic⟩ := by
  have h0 := addrOfIndex_zero buf hne
  have hl : toCInt buf.length = buf.length := toCInt_of_small _ hlen
  refine ⟨h0, ?_, ?_, ?_, ?_, ?_, ?_, ?_, ?_⟩
  · simp [SetIcon, h0, hl]
  · simp [MenuItem.SetIcon, h0, hl]
  · simp [SetTemplateIcon, h0, hl]
  · simp [MenuItem.SetTemplateIcon, h0, hl]
  · simp [SetIcon, addrOfIndex]
  · simp [MenuItem.SetIcon, addrOfIndex]
  · simp [SetTemplateIcon, addrOfIndex]
  · simp [MenuItem.SetTemplateIcon, addrOfIndex]

/-- Witness for C8 (amended) at a three-byte buffer and the item with id 9. -/
theorem icon_setters_forward_witness :
    (MenuItem.mk 9 [] [] false false false none).SetTemplateIcon [1, 2, 3] [4] =
      ⟨[.setMenuItemIcon [1, 2, 3] 3 (toCInt 9) true], .ret ()⟩ :=
  (icon_setters_forward (.mk 9 [] [] false false false none) [1, 2, 3] [4]
    (by decide) (by decide)).2.2.2.2.1

/-- C8 fails as stated: for the non-empty buffer of `2 ^ 31` zero bytes, `SetIcon`
passes the length `-2147483648` to `setIcon`, not the length of the buffer. -/
theorem SetIcon_length_wraps :
    (List.replicate (2 ^ 31) 0 : List Nat) ≠ [] ∧
    SetIcon (List.replicate (2 ^ 31) 0) =
      ⟨[.setIcon (List.replicate (2 ^ 31) 0) (-2147483648) false], .ret ()⟩ ∧
    ((List.replicate (2 ^ 31) 0 : List Nat).length : Int) ≠ -2147483648 := by
  have hne : (List.replicate (2 ^ 31) 0 : List Nat) ≠ [] := by
    intro h
    have := congrArg List.length h
    rw [List.length_replicate] at this
    exact absurd this (by norm_num)
  refine ⟨hne, ?_, ?_⟩
  · rw [SetIcon_of_ne_nil _ hne, List.length_replicate]
    have : toCInt ((2 ^ 31 : Nat) : Int) = -2147483648 := by
      unfold toCInt
      norm_num
    rw [this]
  · rw [List.length_replicate]
    norm_num

/-- C1, as amended: for every file path, each file-path icon setter returns a
non-nil error if and only if reading the file fails, and then it is the read error
wrapped in "failed to read icon file: " and no native call is made. When the read
succeeds the setter passes exactly the bytes read to `SetIcon`; if there is at
least one byte it then returns nil, and if the file is empty `SetIcon` panics
before any native call, so the setter returns neither nil nor an error. -/
theorem SetIconFromFilePath_error_iff (readFile : GoString → Except GoError (List Nat))
    (item : MenuItem) (iconFilePath : GoString) :
    ((∃ e, (SetIconFromFilePath readFile iconFilePath).out = .ret (some e)) ↔
      ∃ err, readFile iconFilePath = .error err) ∧
    ((∃ e, (item.SetIconFromFilePath readFile iconFilePath).out = .ret (some e)) ↔
      ∃ err, readFile iconFilePath = .error err) ∧
    (∀ err, readFile iconFilePath = .error err →
      SetIconFromFilePath readFile iconFilePath =
        ⟨[], .ret (some ("failed to read icon file: " ++ err))⟩ ∧
      item.SetIconFromFilePath readFile iconFilePath =
        ⟨[], .ret (some ("failed to read icon file: " ++ err))⟩) ∧
    (∀ bytes, readFile iconFilePath = .ok bytes →
      (SetIconFromFilePath readFile iconFilePath).calls = (SetIcon bytes).calls ∧
      (item.SetIconFromFilePath readFile iconFilePath).calls = (item.SetIcon bytes).calls ∧
      (bytes ≠ [] →
        (SetIconFromFilePath readFile iconFilePath).out = .ret none ∧
        (item.SetIconFromFilePath readFile iconFilePath).out = .ret none) ∧
      (bytes = [] →
        SetIconFromFilePath readFile iconFilePath = ⟨[], .panic⟩ ∧
        item.SetIconFromFilePath readFile iconFilePath = ⟨[], .panic⟩)) := by
  cases hr : readFile iconFilePath with
  | error err =>
    simp [SetIconFromFilePath, MenuItem.SetIconFromFilePath, hr, Errorf]
  | ok bytes =>
    cases bytes with
    | nil =>
      simp [SetIconFromFilePath, MenuItem.SetIconFromFilePath, hr, SetIcon,
        MenuItem.SetIcon, addrOfIndex, Run.andThen]
    | cons b t =>
      simp [SetIconFromFilePath, MenuItem.SetIconFromFilePath, hr,
        SetIcon_of_ne_nil, MenuItem_SetIcon_of_ne_nil, Run.andThen]

/-- Witness for C1 (amended): a two-byte file is forwarded and nil is returned. -/
theorem SetIconFromFilePath_error_iff_witness :
    (SetIconFromFilePath (fun _ => .ok [1, 2]) [105]).out = .ret none :=
  ((SetIconFromFilePath_error_iff (fun _ => .ok [1, 2])
    (.mk 1 [] [] false false false none) [105]).2.2.2 [1, 2] rfl).2.2.1 (by decide) |>.1

/-- C1 fails as stated: reading an empty file succeeds, and then neither setter
returns nil: `SetIcon` panics on the empty buffer. -/
theorem SetIconFromFilePath_empty_file :
    (SetIconFromFilePath (fun _ => .ok []) (str "icon.png")).out = .panic ∧
    ((MenuItem.mk 1 [] [] false false false none).SetIconFromFilePath (fun _ => .ok [])
      (str "icon.png")).out = .panic := by
  simp [SetIconFromFilePath, MenuItem.SetIconFromFilePath, SetIcon, MenuItem.SetIcon,
    addrOfIndex, Run.andThen]


/-! ## The native menu: one entry per id -/

theorem native_add_or_update_ids_of_mem (menu : List NativeEntry) (id parentID : Int)
    (title tooltip : List Nat) (disabled checked isCheckable : Int)
    (hmem : id ∈ menu.map NativeEntry.id) :
    (native_add_or_update_menu_item menu id parentID title tooltip disabled checked
      isCheckable).map NativeEntry.id = menu.map NativeEntry.id := by
  have hany : menu.any (fun e => decide (e.id = id)) = true := by
    rw [List.any_eq_true]
    obtain ⟨e, he, hid⟩ := List.mem_map.mp hmem
    exact ⟨e, he, by simp [hid]⟩
  unfold native_add_or_update_menu_item
  rw [if_pos hany, List.map_map]
  apply List.map_congr_left
  intro e _
  simp only [Function.comp]
  split <;> rfl

theorem native_add_or_update_ids_of_not_mem (menu : List NativeEntry) (id parentID : Int)
    (title tooltip : List Nat) (disabled checked isCheckable : Int)
    (hmem : id ∉ menu.map NativeEntry.id) :
    native_add_or_update_menu_item menu id parentID title tooltip disabled checked
      isCheckable =
      menu ++ [⟨id, parentID, title, tooltip, disabled, checked, isCheckable, false⟩] := by
  have hany : ¬ menu.any (fun e => decide (e.id = id)) = true := by
    rw [List.any_eq_true]
    rintro ⟨e, he, hid⟩
    exact hmem (List.mem_map.mpr ⟨e, he, by simpa using hid⟩)
  unfold native_add_or_update_menu_item
  rw [if_neg hany]

theorem native_add_or_update_entry (menu : List NativeEntry) (id parentID : Int)
    (title tooltip : List Nat) (disabled checked isCheckable : Int) :
    ∀ e ∈ native_add_or_update_menu_item menu id parentID title tooltip disabled checked
        isCheckable,
      e.id = id → e.title = title ∧ e.tooltip = tooltip ∧ e.disabled = disabled ∧
        e.checked = checked ∧ e.isCheckable = isCheckable := by
  intro e he hid
  by_cases hmem : id ∈ menu.map NativeEntry.id
  · have hany : menu.any (fun e => decide (e.id = id)) = true := by
      rw [List.any_eq_true]
      obtain ⟨x, hx, hxid⟩ := List.mem_map.mp hmem
      exact ⟨x, hx, by simp [hxid]⟩
    unfold native_add_or_update_menu_item at he
    rw [if_pos hany] at he
    obtain ⟨x, _, hx⟩ := List.mem_map.mp he
    by_cases hxid : x.id = id
    · rw [if_pos hxid] at hx
      subst hx
      exact ⟨rfl, rfl, rfl, rfl, rfl⟩
    · rw [if_neg hxid] at hx
      subst hx
      exact absurd hid hxid
  · rw [native_add_or_update_ids_of_not_mem menu id parentID title tooltip disabled checked
      isCheckable hmem] at he
    rcases List.mem_append.mp he with h | h
    · exact absurd (List.mem_map.mpr ⟨e, h, hid⟩) hmem
    · rw [List.mem_singleton] at h
      subst h
      exact ⟨rfl, rfl, rfl, rfl, rfl⟩

theorem native_add_or_update_spec (menu : List NativeEntry) (id parentID : Int)
    (title tooltip : List Nat) (disabled checked isCheckable : Int)
    (hnd : (menu.map NativeEntry.id).Nodup) :
    ((native_add_or_update_menu_item menu id parentID title tooltip disabled checked
        isCheckable).map NativeEntry.id).Nodup ∧
    ((native_add_or_update_menu_item menu id parentID title tooltip disabled checked
        isCheckable).map NativeEntry.id).count id = 1 := by
  by_cases hmem : id ∈ menu.map NativeEntry.id
  · rw [native_add_or_update_ids_of_mem menu id parentID title tooltip disabled checked
      isCheckable hmem]
    exact ⟨hnd, List.count_eq_one_of_mem hnd hmem⟩
  · rw [native_add_or_update_ids_of_not_mem menu id parentID title tooltip disabled checked
      isCheckable hmem]
    refine ⟨?_, ?_⟩
    · rw [List.map_append, List.map_singleton]
      exact List.Nodup.append hnd (List.nodup_singleton _)
        (by
          intro a ha hb
          rw [List.mem_singleton] at hb
          subst hb
          exact hmem ha)
    · rw [List.map_append, List.count_append, List.count_eq_zero_of_not_mem hmem]
      simp

theorem nativeStep_ids_nodup (menu : List NativeEntry) (c : NativeCall)
    (hnd : (menu.map NativeEntry.id).Nodup) :
    ((nativeStep menu c).map NativeEntry.id).Nodup := by
  cases c with
  | add_or_update_menu_item id parentID title tooltip disabled checked isCheckable =>
    exact (native_add_or_update_spec menu id parentID title tooltip disabled checked
      isCheckable hnd).1
  | hide_menu_item id =>
    have : (nativeStep menu (.hide_menu_item id)).map NativeEntry.id =
        menu.map NativeEntry.id := by
      simp only [nativeStep, List.map_map]
      apply List.map_congr_left
      intro e _
      simp only [Function.comp]
      split <;> rfl
    rw [this]
    exact hnd
  | show_menu_item id =>
    have : (nativeStep menu (.show_menu_item id)).map NativeEntry.id =
        menu.map NativeEntry.id := by
      simp only [nativeStep, List.map_map]
      apply List.map_congr_left
      intro e _
      simp only [Function.comp]
      split <;> rfl
    rw [this]
    exact hnd
  | remove_menu_item id =>
    simp only [nativeStep]
    exact hnd.sublist ((List.filter_sublist _).map _)
  | reset_menu => simp [nativeStep]
  | setIcon _ _ _ => exact hnd
  | setMenuItemIcon _ _ _ _ => exact hnd
  | add_separator _ _ => exact hnd

theorem nativeRun_ids_nodup (calls : List NativeCall) (menu : List NativeEntry)
    (hnd : (menu.map NativeEntry.id).Nodup) :
    ((nativeRun menu calls).map NativeEntry.id).Nodup := by
  induction calls generalizing menu with
  | nil => exact hnd
  | cons c rest ih => exact ih _ (nativeStep_ids_nodup menu c hnd)

theorem nativeRun_addOrUpdateMenuItem (id : Nat) (parent : Option MenuItem) :
    ∃ pid : Int, ∀ (menu : List NativeEntry) (t tip : GoString) (d c k : Bool),
      nativeRun menu (addOrUpdateMenuItem (.mk id t tip d c k parent)) =
        native_add_or_update_menu_item menu (toCInt id) pid (CString t) (CString tip)
          (if d then 1 else 0) (if c then 1 else 0) (if k then 1 else 0) :=
  ⟨toCInt ((match parent with | some p => p.id | none => 0 : Nat) : Int),
    fun _ _ _ _ _ _ => rfl⟩

/-- C4: over the native menu as the spec describes it (entries keyed by id, starting
empty, after any history of native calls), for every item id, parent and two
versions of the item with titles `t1` and `t2` (and their own tooltips and flags),
`addOrUpdateMenuItem` with the first version and then with the second leaves
exactly one native entry for that id; the second call adds no entry, and the entry
carries the title, tooltip and flags of the second version. -/
theorem addOrUpdateMenuItem_twice_one_entry (history : List NativeCall) (id : Nat)
    (parent : Option MenuItem) (t1 tip1 t2 tip2 : GoString) (d1 c1 k1 d2 c2 k2 : Bool) :
    ((nativeRun (nativeRun (nativeRun [] history)
          (addOrUpdateMenuItem (.mk id t1 tip1 d1 c1 k1 parent)))
        (addOrUpdateMenuItem (.mk id t2 tip2 d2 c2 k2 parent))).map NativeEntry.id).count
      (toCInt id) = 1 ∧
    (nativeRun (nativeRun (nativeRun [] history)
          (addOrUpdateMenuItem (.mk id t1 tip1 d1 c1 k1 parent)))
        (addOrUpdateMenuItem (.mk id t2 tip2 d2 c2 k2 parent))).length =
      (nativeRun (nativeRun [] history)
        (addOrUpdateMenuItem (.mk id t1 tip1 d1 c1 k1 parent))).length ∧
    ∀ e ∈ nativeRun (nativeRun (nativeRun [] history)
          (addOrUpdateMenuItem (.mk id t1 tip1 d1 c1 k1 parent)))
        (addOrUpdateMenuItem (.mk id t2 tip2 d2 c2 k2 parent)),
      e.id = toCInt id →
        e.title = CString t2 ∧ e.tooltip = CString tip2 ∧
        e.disabled = (if d2 then 1 else 0) ∧ e.checked = (if c2 then 1 else 0) ∧
        e.isCheckable = (if k2 then 1 else 0) := by
  have h0 : ((nativeRun [] history).map NativeEntry.id).Nodup :=
    nativeRun_ids_nodup history [] (by simp)
  generalize nativeRun [] history = menu0 at h0 ⊢
  obtain ⟨pid, hp⟩ := nativeRun_addOrUpdateMenuItem id parent
  rw [hp, hp]
  have h1 := native_add_or_update_spec menu0 (toCInt id) pid (CString t1) (CString tip1)
    (if d1 then 1 else 0) (if c1 then 1 else 0) (if k1 then 1 else 0) h0
  generalize native_add_or_update_menu_item menu0 (toCInt id) pid (CString t1) (CString tip1)
    (if d1 then 1 else 0) (if c1 then 1 else 0) (if k1 then 1 else 0) = menu1 at h1 ⊢
  have h2 := native_add_or_update_spec menu1 (toCInt id) pid (CString t2) (CString tip2)
    (if d2 then 1 else 0) (if c2 then 1 else 0) (if k2 then 1 else 0) h1.1
  have h3 := native_add_or_update_entry menu1 (toCInt id) pid (CString t2) (CString tip2)
    (if d2 then 1 else 0) (if c2 then 1 else 0) (if k2 then 1 else 0)
  refine ⟨h2.2, ?_, h3⟩
  have hmem : toCInt id ∈ menu1.map NativeEntry.id := by
    have hpos : 0 < (menu1.map NativeEntry.id).count (toCInt id) := by
      rw [h1.2]
      exact Nat.one_pos
    exact List.count_pos_iff.mp hpos
  have := congrArg List.length (native_add_or_update_ids_of_mem menu1 (toCInt id) pid
    (CString t2) (CString tip2) (if d2 then 1 else 0) (if c2 then 1 else 0)
    (if k2 then 1 else 0) hmem)
  simpa using this

/-! ## Quoting: a quoted value stays one literal -/

theorem readLiteral_plain_cons (c : Nat) (rest : List Nat) (h34 : c ≠ 34) (h92 : c ≠ 92) :
    readLiteral false (c :: rest) =
      (readLiteral false rest).map fun p => (c :: p.1, p.2) := by
  simp [readLiteral, h34, h92]

theorem readLiteral_escape_cons (c : Nat) (rest : List Nat) :
    readLiteral false (92 :: c :: rest) =
      (readLiteral false rest).map fun p => (92 :: c :: p.1, p.2) := by
  simp only [readLiteral, if_true, if_false, Bool.false_eq_true]
  generalize readLiteral false rest = o
  cases o <;> rfl

theorem readLiteral_quote (rest : List Nat) : readLiteral false (34 :: rest) = some ([], rest) := by
  simp [readLiteral]

theorem readsThrough_nil : ReadsThrough [] := by
  intro rest
  simp only [List.nil_append]
  generalize readLiteral false rest = o
  cases o <;> rfl

theorem readsThrough_append {a b : List Nat} (ha : ReadsThrough a) (hb : ReadsThrough b) :
    ReadsThrough (a ++ b) := by
  intro rest
  rw [List.append_assoc, ha (b ++ rest), hb rest]
  generalize readLiteral false rest = o
  cases o <;> simp

theorem readsThrough_plain (l : List Nat) (hl : Plain l) : ReadsThrough l := by
  induction l with
  | nil => exact readsThrough_nil
  | cons c t ih =>
    intro rest
    have hc := hl c (List.mem_cons_self _ _)
    have ht : Plain t := fun x hx => hl x (List.mem_cons_of_mem _ hx)
    have := ih ht rest
    rw [List.cons_append, readLiteral_plain_cons c _ hc.1 hc.2, this]
    generalize readLiteral false rest = o
    cases o <;> simp

theorem readsThrough_escape (c : Nat) (l : List Nat) (hl : Plain l) :
    ReadsThrough (92 :: c :: l) := by
  intro rest
  have := readsThrough_plain l hl rest
  rw [List.cons_append, List.cons_append, readLiteral_escape_cons, this]
  generalize readLiteral false rest = o
  cases o <;> simp

theorem lowerhex_eq :
    lowerhex = [48, 49, 50, 51, 52, 53, 54, 55, 56, 57, 97, 98, 99, 100, 101, 102] := by
  decide

theorem hexDigit_plain (i : Nat) : hexDigit i ≠ 34 ∧ hexDigit i ≠ 92 := by
  unfold hexDigit
  rw [lowerhex_eq]
  rcases Nat.lt_or_ge i 16 with h | h
  · interval_cases i <;> decide
  · rw [List.getD_eq_default _ _ (by simpa using h)]
    decide

theorem or_ne_of_testBit (a x c i : Nat) (ha : a.testBit i = true)
    (hc : c.testBit i = false) : a ||| x ≠ c := by
  intro h
  have h2 := congrArg (fun n => n.testBit i) h
  simp only [Nat.testBit_or, ha, hc, Bool.true_or] at h2
  exact absurd h2 (by decide)

theorem plain_nil : Plain [] := by
  intro c hc
  cases hc

theorem plain_cons (c : Nat) (l : List Nat) (h34 : c ≠ 34) (h92 : c ≠ 92) (hl : Plain l) :
    Plain (c :: l) := by
  intro x hx
  rcases List.mem_cons.mp hx with rfl | h
  · exact ⟨h34, h92⟩
  · exact hl x h

theorem plain_or_cons (a x : Nat) (l : List Nat) (ha : a.testBit 7 = true) (hl : Plain l) :
    Plain ((a ||| x) :: l) :=
  plain_cons _ _ (or_ne_of_testBit a x 34 7 ha (by decide))
    (or_ne_of_testBit a x 92 7 ha (by decide)) hl

theorem AppendRune_plain (r : Nat) (h34 : r ≠ 34) (h92 : r ≠ 92) : Plain (AppendRune r) := by
  have b80 : (0x80 : Nat).testBit 7 = true := by decide
  have bC0 : (0xC0 : Nat).testBit 7 = true := by decide
  have bE0 : (0xE0 : Nat).testBit 7 = true := by decide
  have bF0 : (0xF0 : Nat).testBit 7 = true := by decide
  unfold AppendRune
  dsimp only
  split_ifs with h1 h2 h3 h4 h5
  · exact plain_cons _ _ (by omega) (by omega) plain_nil
  · exact plain_or_cons _ _ _ bC0 (plain_or_cons _ _ _ b80 plain_nil)
  · exact plain_or_cons _ _ _ bE0 (plain_or_cons _ _ _ b80 (plain_or_cons _ _ _ b80 plain_nil))
  · exact plain_or_cons _ _ _ bF0 (plain_or_cons _ _ _ b80
      (plain_or_cons _ _ _ b80 (plain_or_cons _ _ _ b80 plain_nil)))
  · exact plain_or_cons _ _ _ bE0 (plain_or_cons _ _ _ b80 (plain_or_cons _ _ _ b80 plain_nil))
  · exact plain_or_cons _ _ _ bF0 (plain_or_cons _ _ _ b80
      (plain_or_cons _ _ _ b80 (plain_or_cons _ _ _ b80 plain_nil)))

theorem plain_map_hexDigit (g : Nat → Nat) (l : List Nat) :
    Plain (l.map fun s => hexDigit (g s)) := by
  intro c hc
  obtain ⟨s, _, rfl⟩ := List.mem_map.mp hc
  exact hexDigit_plain _

theorem readsThrough_hex_escape (c h1 h2 : Nat) :
    ReadsThrough (92 :: c :: [hexDigit h1, hexDigit h2]) :=
  readsThrough_escape c _
    (plain_cons _ _ (hexDigit_plain h1).1 (hexDigit_plain h1).2
      (plain_cons _ _ (hexDigit_plain h2).1 (hexDigit_plain h2).2 plain_nil))

theorem str_escapes :
    str "\\a" = [92, 97] ∧ str "\\b" = [92, 98] ∧ str "\\f" = [92, 102] ∧
    str "\\n" = [92, 110] ∧ str "\\r" = [92, 114] ∧ str "\\t" = [92, 116] ∧
    str "\\v" = [92, 118] ∧ str "\\x" = [92, 120] ∧ str "\\u" = [92, 117] ∧
    str "\\U" = [92, 85] := by
  decide

theorem appendEscapedRune_readsThrough (isPrint : Nat → Bool) (r : Nat) :
    ReadsThrough (appendEscapedRune isPrint r 34) := by
  obtain ⟨ea, eb, ef, en, er, et, ev, ex, eu, eU⟩ := str_escapes
  unfold appendEscapedRune
  rw [ea, eb, ef, en, er, et, ev, ex, eu, eU]
  by_cases h1 : r = 34 ∨ r = 92
  · rw [if_pos h1]
    exact readsThrough_escape _ [] plain_nil
  rw [if_neg h1]
  by_cases h2 : isPrint r = true
  · rw [if_pos h2]
    exact readsThrough_plain _ (AppendRune_plain r (fun h => h1 (Or.inl h))
      (fun h => h1 (Or.inr h)))
  rw [if_neg h2]
  by_cases h3 : r = 7
  · rw [if_pos h3]
    exact readsThrough_escape 97 [] plain_nil
  rw [if_neg h3]
  by_cases h4 : r = 8
  · rw [if_pos h4]
    exact readsThrough_escape 98 [] plain_nil
  rw [if_neg h4]
  by_cases h5 : r = 12
  · rw [if_pos h5]
    exact readsThrough_escape 102 [] plain_nil
  rw [if_neg h5]
  by_cases h6 : r = 10
  · rw [if_pos h6]
    exact readsThrough_escape 110 [] plain_nil
  rw [if_neg h6]
  by_cases h7 : r = 13
  · rw [if_pos h7]
    exact readsThrough_escape 114 [] plain_nil
  rw [if_neg h7]
  by_cases h8 : r = 9
  · rw [if_pos h8]
    exact readsThrough_escape 116 [] plain_nil
  rw [if_neg h8]
  by_cases h9 : r = 11
  · rw [if_pos h9]
    exact readsThrough_escape 118 [] plain_nil
  rw [if_neg h9]
  by_cases h10 : r < 32 ∨ r = 0x7F
  · rw [if_pos h10]
    exact readsThrough_hex_escape 120 _ _
  rw [if_neg h10]
  dsimp only
  by_cases h11 : (if ValidRune r = true then r else 0xFFFD) < 0x10000
  · rw [if_pos h11]
    exact readsThrough_escape 117 _ (plain_map_hexDigit _ _)
  · rw [if_neg h11]
    exact readsThrough_escape 85 _ (plain_map_hexDigit _ _)

theorem quoteBody_cons (isPrint : Nat → Bool) (quote s0 : Nat) (t : List Nat) :
    quoteBody isPrint quote (s0 :: t) =
      (if (if RuneSelf ≤ s0 then DecodeRuneInString (s0 :: t) else (s0, 1)).2 = 1 ∧
            (if RuneSelf ≤ s0 then DecodeRuneInString (s0 :: t) else (s0, 1)).1 = RuneError then
          str "\\x" ++ [hexDigit (s0 >>> 4), hexDigit (s0 &&& 0xF)]
        else appendEscapedRune isPrint
          (if RuneSelf ≤ s0 then DecodeRuneInString (s0 :: t) else (s0, 1)).1 quote)
        ++ quoteBody isPrint quote
          (t.drop ((if RuneSelf ≤ s0 then DecodeRuneInString (s0 :: t) else (s0, 1)).2 - 1)) := by
  rw [quoteBody]

theorem quoteBody_readsThrough (isPrint : Nat → Bool) (s : List Nat) :
    ReadsThrough (quoteBody isPrint 34 s) := by
  generalize hn : s.length = n
  induction n using Nat.strong_induction_on generalizing s with
  | _ n ih =>
    cases s with
    | nil =>
      rw [quoteBody]
      exact readsThrough_nil
    | cons s0 t =>
      rw [quoteBody_cons]
      generalize (if RuneSelf ≤ s0 then DecodeRuneInString (s0 :: t) else (s0, 1)) = rw
      apply readsThrough_append
      · split
        · rw [str_escapes.2.2.2.2.2.2.2.1]
          exact readsThrough_hex_escape 120 _ _
        · exact appendEscapedRune_readsThrough isPrint _
      · apply ih _ _ _ rfl
        rw [← hn, List.length_drop, List.length_cons]
        omega

/-- The text between the quotes of a quoted value is read back as one literal, which
ends at the closing quote that `Quote` wrote and nowhere before. -/
theorem readLiteral_quoteBody (isPrint : Nat → Bool) (s rest : List Nat) :
    readLiteral false (quoteBody isPrint 34 s ++ 34 :: rest) =
      some (quoteBody isPrint 34 s, rest) := by
  rw [quoteBody_readsThrough isPrint s (34 :: rest), readLiteral_quote]
  simp

theorem expect_append (pre s : List Nat) : expect pre (pre ++ s) = some s := by
  unfold expect
  rw [if_pos (by simp)]
  simp


/-! ## Quoting: every quote and backslash of the value is escaped -/

theorem first_cases (b : Nat) :
    0xF0 ≤ first b ∨
      (first b < 0xF0 ∧ 2 ≤ first b &&& 7 ∧ first b &&& 7 ≤ 4 ∧
        0x80 ≤ (acceptRanges (first b >>> 4)).1) := by
  unfold first
  split_ifs <;> decide

theorem DecodeRuneInString_stable (s0 c : Nat) (t b : List Nat) (hc : c < 0x80) :
    DecodeRuneInString (s0 :: (t ++ c :: b)) = DecodeRuneInString (s0 :: t) ∧
    (DecodeRuneInString (s0 :: t)).2 - 1 ≤ t.length := by
  unfold DecodeRuneInString
  dsimp only
  rcases first_cases s0 with hF | ⟨hF, h2, h4, hlo⟩
  · rw [if_pos hF, if_pos hF]
    refine ⟨rfl, ?_⟩
    split <;> simp
  · have hnF : ¬ 0xF0 ≤ first s0 := by omega
    rw [if_neg hnF, if_neg hnF]
    generalize first s0 &&& 7 = sz at h2 h4 ⊢
    generalize acceptRanges (first s0 >>> 4) = acc at hlo ⊢
    match t with
    | [] =>
      simp only [List.nil_append, List.length_cons, List.length_nil]
      have h1 : c < acc.1 := by omega
      simp [h1]
    | [s1] =>
      simp only [List.cons_append, List.nil_append, List.length_cons, List.length_nil]
      have h1 : c < 0x80 ∨ 0xBF < c := Or.inl hc
      split_ifs <;> simp_all <;> omega
    | [s1, s2] =>
      simp only [List.cons_append, List.nil_append, List.length_cons, List.length_nil]
      have h1 : c < 0x80 ∨ 0xBF < c := Or.inl hc
      split_ifs <;> simp_all <;> omega
    | s1 :: s2 :: s3 :: t3 =>
      simp only [List.cons_append, List.nil_append, List.length_cons, List.length_nil,
        List.length_append]
      split_ifs <;> simp_all <;> omega

theorem quoteBody_append_ascii (isPrint : Nat → Bool) (quote c : Nat) (hc : c < 0x80)
    (a b : List Nat) :
    quoteBody isPrint quote (a ++ c :: b) =
      quoteBody isPrint quote a ++ quoteBody isPrint quote (c :: b) := by
  generalize hn : a.length = n
  induction n using Nat.strong_induction_on generalizing a with
  | _ n ih =>
    cases a with
    | nil =>
      rw [List.nil_append]
      conv => rhs; rw [quoteBody]
      rfl
    | cons s0 t =>
      have hst := DecodeRuneInString_stable s0 c t b hc
      have hrw : (if RuneSelf ≤ s0 then DecodeRuneInString (s0 :: (t ++ c :: b)) else (s0, 1)) =
          (if RuneSelf ≤ s0 then DecodeRuneInString (s0 :: t) else (s0, 1)) := by
        rw [hst.1]
      have hw : (if RuneSelf ≤ s0 then DecodeRuneInString (s0 :: t) else (s0, 1)).2 - 1 ≤
          t.length := by
        split
        · exact hst.2
        · simp
      rw [List.cons_append, quoteBody_cons, quoteBody_cons isPrint quote s0 t, hrw]
      generalize (if RuneSelf ≤ s0 then DecodeRuneInString (s0 :: t) else (s0, 1)) = rw at hw ⊢
      rw [List.drop_append_of_le_length hw, ih (t.drop (rw.2 - 1)).length _ _ rfl,
        List.append_assoc]
      rw [← hn, List.length_drop, List.length_cons]
      omega

theorem quoteBody_quote_cons (isPrint : Nat → Bool) (b : List Nat) :
    quoteBody isPrint 34 (34 :: b) = [92, 34] ++ quoteBody isPrint 34 b := by
  rw [quoteBody_cons]
  simp [RuneSelf, RuneError, appendEscapedRune]

theorem quoteBody_backslash_cons (isPrint : Nat → Bool) (b : List Nat) :
    quoteBody isPrint 34 (92 :: b) = [92, 92] ++ quoteBody isPrint 34 b := by
  rw [quoteBody_cons]
  simp [RuneSelf, RuneError, appendEscapedRune]

theorem readNotification_script (isPrint : Nat → Bool) (msg appName title : GoString) :
    readNotification (str "display notification " ++ Quote isPrint msg ++ str " with title "
        ++ Quote isPrint appName ++ str " subtitle " ++ Quote isPrint title) =
      some (quoteBody isPrint 34 msg, quoteBody isPrint 34 appName,
        quoteBody isPrint 34 title) := by
  have e1 : str "display notification \"" = str "display notification " ++ [34] := by decide
  have e2 : str " with title \"" = str " with title " ++ [34] := by decide
  have e3 : str " subtitle \"" = str " subtitle " ++ [34] := by decide
  have hshape : str "display notification " ++ Quote isPrint msg ++ str " with title "
        ++ Quote isPrint appName ++ str " subtitle " ++ Quote isPrint title =
      (str "display notification " ++ [34]) ++ (quoteBody isPrint 34 msg ++ 34 ::
        ((str " with title " ++ [34]) ++ (quoteBody isPrint 34 appName ++ 34 ::
          ((str " subtitle " ++ [34]) ++ (quoteBody isPrint 34 title ++ 34 :: []))))) := by
    simp only [Quote, List.append_assoc, List.singleton_append, List.cons_append,
      List.nil_append]
  rw [hshape]
  unfold readNotification
  rw [e1, e2, e3, expect_append, Option.some_bind, readLiteral_quoteBody, Option.some_bind]
  dsimp only
  rw [expect_append, Option.some_bind, readLiteral_quoteBody, Option.some_bind]
  dsimp only
  rw [expect_append, Option.some_bind, readLiteral_quoteBody, Option.some_bind]
  simp


/-! ## Quoting: the quoted text denotes the value -/

theorem first_invalid (b : Nat) (h : (0x80 ≤ b ∧ b < 0xC2) ∨ 0xF5 ≤ b) : first b = 0xF1 := by
  unfold first
  split_ifs <;> omega

theorem first_two (b : Nat) (h1 : 0xC2 ≤ b) (h2 : b < 0xE0) : first b = 0x02 := by
  unfold first
  split_ifs <;> omega

theorem first_three (b : Nat) (h1 : 0xE1 ≤ b) (h2 : b < 0xF0) (h3 : b ≠ 0xED) :
    first b = 0x03 := by
  unfold first
  split_ifs <;> omega

theorem first_four (b : Nat) (h1 : 0xF1 ≤ b) (h2 : b < 0xF4) : first b = 0x04 := by
  unfold first
  split_ifs <;> omega

theorem first_special :
    first 0xE0 = 0x13 ∧ first 0xED = 0x23 ∧ first 0xF0 = 0x34 ∧ first 0xF4 = 0x44 := by
  decide


theorem DecodeRuneInString_multi (s0 : Nat) (t : List Nat) (hx : first s0 < 0xF0) :
    DecodeRuneInString (s0 :: t) = (RuneError, 1) ∨
    (∃ s1 t2, t = s1 :: t2 ∧ first s0 &&& 7 ≤ 2 ∧
      (acceptRanges (first s0 >>> 4)).1 ≤ s1 ∧ s1 ≤ (acceptRanges (first s0 >>> 4)).2 ∧
      DecodeRuneInString (s0 :: t) = (((s0 &&& 0x1F) <<< 6) ||| (s1 &&& 0x3F), 2)) ∨
    (∃ s1 s2 t3, t = s1 :: s2 :: t3 ∧ first s0 &&& 7 = 3 ∧
      (acceptRanges (first s0 >>> 4)).1 ≤ s1 ∧ s1 ≤ (acceptRanges (first s0 >>> 4)).2 ∧
      0x80 ≤ s2 ∧ s2 ≤ 0xBF ∧
      DecodeRuneInString (s0 :: t) =
        (((s0 &&& 0x0F) <<< 12) ||| ((s1 &&& 0x3F) <<< 6) ||| (s2 &&& 0x3F), 3)) ∨
    (∃ s1 s2 s3 t4, t = s1 :: s2 :: s3 :: t4 ∧ 4 ≤ first s0 &&& 7 ∧
      (acceptRanges (first s0 >>> 4)).1 ≤ s1 ∧ s1 ≤ (acceptRanges (first s0 >>> 4)).2 ∧
      0x80 ≤ s2 ∧ s2 ≤ 0xBF ∧ 0x80 ≤ s3 ∧ s3 ≤ 0xBF ∧
      DecodeRuneInString (s0 :: t) =
        (((s0 &&& 0x07) <<< 18) ||| ((s1 &&& 0x3F) <<< 12) ||| ((s2 &&& 0x3F) <<< 6)
          ||| (s3 &&& 0x3F), 4)) := by
  have hnF : ¬ 0xF0 ≤ first s0 := by omega
  unfold DecodeRuneInString
  dsimp only
  rw [if_neg hnF]
  generalize first s0 &&& 7 = sz
  generalize acceptRanges (first s0 >>> 4) = acc
  by_cases hl : (s0 :: t).length < sz
  · rw [if_pos hl]
    exact Or.inl rfl
  rw [if_neg hl]
  cases t with
  | nil => exact Or.inl rfl
  | cons s1 t1 =>
    dsimp only
    by_cases h1 : s1 < acc.1 ∨ acc.2 < s1
    · rw [if_pos h1]
      exact Or.inl rfl
    rw [if_neg h1]
    by_cases h2 : sz ≤ 2
    · rw [if_pos h2]
      exact Or.inr (Or.inl ⟨s1, t1, rfl, h2, by omega, by omega, rfl⟩)
    rw [if_neg h2]
    cases t1 with
    | nil => exact Or.inl rfl
    | cons s2 t2 =>
      dsimp only
      by_cases h3 : s2 < 0x80 ∨ 0xBF < s2
      · rw [if_pos h3]
        exact Or.inl rfl
      rw [if_neg h3]
      by_cases h4 : sz ≤ 3
      · rw [if_pos h4]
        exact Or.inr (Or.inr (Or.inl ⟨s1, s2, t2, rfl, by omega, by omega, by omega,
          by omega, by omega, rfl⟩))
      rw [if_neg h4]
      cases t2 with
      | nil => exact Or.inl rfl
      | cons s3 t3 =>
        dsimp only
        by_cases h5 : s3 < 0x80 ∨ 0xBF < s3
        · rw [if_pos h5]
          exact Or.inl rfl
        rw [if_neg h5]
        exact Or.inr (Or.inr (Or.inr ⟨s1, s2, s3, t3, rfl, by omega, by omega, by omega,
          by omega, by omega, by omega, by omega, rfl⟩))


theorem and_mask (x : Nat) :
    x &&& 0x3F = x % 64 ∧ x &&& 0x1F = x % 32 ∧ x &&& 0x0F = x % 16 ∧ x &&& 0x07 = x % 8 :=
  ⟨Nat.and_pow_two_sub_one_eq_mod x 6, Nat.and_pow_two_sub_one_eq_mod x 5,
    Nat.and_pow_two_sub_one_eq_mod x 4, Nat.and_pow_two_sub_one_eq_mod x 3⟩

theorem shift_arith (x : Nat) :
    x <<< 6 = x * 64 ∧ x <<< 12 = x * 4096 ∧ x <<< 18 = x * 262144 ∧
    x >>> 4 = x / 16 ∧ x >>> 6 = x / 64 ∧ x >>> 12 = x / 4096 ∧ x >>> 18 = x / 262144 := by
  refine ⟨?_, ?_, ?_, ?_, ?_, ?_, ?_⟩
  · rw [Nat.shiftLeft_eq]
  · rw [Nat.shiftLeft_eq]
  · rw [Nat.shiftLeft_eq]
  · rw [Nat.shiftRight_eq_div_pow]
  · rw [Nat.shiftRight_eq_div_pow]
  · rw [Nat.shiftRight_eq_div_pow]
  · rw [Nat.shiftRight_eq_div_pow]

theorem or_eq_add (a b i : Nat) (ha : a % 2 ^ i = 0) (hb : b < 2 ^ i) : a ||| b = a + b := by
  have h : a = 2 ^ i * (a / 2 ^ i) := by
    have := Nat.div_add_mod a (2 ^ i)
    omega
  rw [h]
  exact (Nat.mul_add_lt_is_or hb _).symm

theorem AppendRune_two (s0 s1 : Nat) (h1 : 0xC2 ≤ s0) (h2 : s0 < 0xE0) (h3 : 0x80 ≤ s1)
    (h4 : s1 ≤ 0xBF) :
    AppendRune (((s0 &&& 0x1F) <<< 6) ||| (s1 &&& 0x3F)) = [s0, s1] ∧
    0x80 ≤ ((s0 &&& 0x1F) <<< 6) ||| (s1 &&& 0x3F) := by
  have hr : ((s0 &&& 0x1F) <<< 6) ||| (s1 &&& 0x3F) = (s0 - 0xC0) * 64 + (s1 - 0x80) := by
    rw [(and_mask s0).2.1, (and_mask s1).1, (shift_arith _).1,
      or_eq_add _ _ 6 (by omega) (by omega)]
    omega
  rw [hr]
  generalize hrr : (s0 - 0xC0) * 64 + (s1 - 0x80) = r
  have hlo : 0x80 ≤ r := by omega
  have hhi : r ≤ 0x7FF := by omega
  refine ⟨?_, hlo⟩
  unfold AppendRune
  rw [if_neg (by omega), if_pos hhi, (shift_arith r).2.2.2.2.1, (and_mask (r % 256)).1,
    or_eq_add 0xC0 _ 6 (by norm_num) (by omega), or_eq_add 0x80 _ 6 (by norm_num) (by omega)]
  have e1 : 0xC0 + r / 64 % 256 = s0 := by omega
  have e2 : 0x80 + r % 256 % 64 = s1 := by omega
  rw [e1, e2]


theorem AppendRune_three (s0 s1 s2 : Nat) (h1 : 0xE0 ≤ s0) (h2 : s0 < 0xF0) (h3 : 0x80 ≤ s1)
    (h4 : s1 ≤ 0xBF) (h5 : s0 = 0xE0 → 0xA0 ≤ s1) (h6 : s0 = 0xED → s1 ≤ 0x9F)
    (h7 : 0x80 ≤ s2) (h8 : s2 ≤ 0xBF) :
    AppendRune (((s0 &&& 0x0F) <<< 12) ||| ((s1 &&& 0x3F) <<< 6) ||| (s2 &&& 0x3F)) =
      [s0, s1, s2] ∧
    0x80 ≤ ((s0 &&& 0x0F) <<< 12) ||| ((s1 &&& 0x3F) <<< 6) ||| (s2 &&& 0x3F) := by
  have hr : ((s0 &&& 0x0F) <<< 12) ||| ((s1 &&& 0x3F) <<< 6) ||| (s2 &&& 0x3F) =
      (s0 - 0xE0) * 4096 + (s1 - 0x80) * 64 + (s2 - 0x80) := by
    rw [(and_mask s0).2.2.1, (and_mask s1).1, (and_mask s2).1, (shift_arith _).2.1,
      (shift_arith _).1, or_eq_add (s0 % 16 * 4096) (s1 % 64 * 64) 12 (by omega) (by omega),
      or_eq_add (s0 % 16 * 4096 + s1 % 64 * 64) (s2 % 64) 6 (by omega) (by omega)]
    omega
  rw [hr]
  generalize hrr : (s0 - 0xE0) * 4096 + (s1 - 0x80) * 64 + (s2 - 0x80) = r
  have hlo : 0x800 ≤ r := by omega
  have hhi : r ≤ 0xFFFF := by omega
  have hsur : ¬ (MaxRune < r ∨ (0xD800 ≤ r ∧ r ≤ 0xDFFF)) := by
    unfold MaxRune
    omega
  refine ⟨?_, by omega⟩
  unfold AppendRune
  rw [if_neg (by omega), if_neg (by omega)]
  dsimp only
  rw [if_neg hsur, if_pos hhi, (shift_arith r).2.2.2.2.1, (shift_arith r).2.2.2.2.2.1,
    (and_mask (r % 256)).1, (and_mask (r / 64 % 256)).1,
    or_eq_add 0xE0 _ 4 (by norm_num) (by omega), or_eq_add 0x80 _ 6 (by norm_num) (by omega),
    or_eq_add 0x80 _ 6 (by norm_num) (by omega)]
  have e1 : 0xE0 + r / 4096 % 256 = s0 := by omega
  have e2 : 0x80 + r / 64 % 256 % 64 = s1 := by omega
  have e3 : 0x80 + r % 256 % 64 = s2 := by omega
  rw [e1, e2, e3]

theorem AppendRune_four (s0 s1 s2 s3 : Nat) (h1 : 0xF0 ≤ s0) (h2 : s0 ≤ 0xF4) (h3 : 0x80 ≤ s1)
    (h4 : s1 ≤ 0xBF) (h5 : s0 = 0xF0 → 0x90 ≤ s1) (h6 : s0 = 0xF4 → s1 ≤ 0x8F)
    (h7 : 0x80 ≤ s2) (h8 : s2 ≤ 0xBF) (h9 : 0x80 ≤ s3) (h10 : s3 ≤ 0xBF) :
    AppendRune (((s0 &&& 0x07) <<< 18) ||| ((s1 &&& 0x3F) <<< 12) ||| ((s2 &&& 0x3F) <<< 6)
        ||| (s3 &&& 0x3F)) = [s0, s1, s2, s3] ∧
    0x80 ≤ ((s0 &&& 0x07) <<< 18) ||| ((s1 &&& 0x3F) <<< 12) ||| ((s2 &&& 0x3F) <<< 6)
        ||| (s3 &&& 0x3F) := by
  have hr : ((s0 &&& 0x07) <<< 18) ||| ((s1 &&& 0x3F) <<< 12) ||| ((s2 &&& 0x3F) <<< 6)
        ||| (s3 &&& 0x3F) =
      (s0 - 0xF0) * 262144 + (s1 - 0x80) * 4096 + (s2 - 0x80) * 64 + (s3 - 0x80) := by
    rw [(and_mask s0).2.2.2, (and_mask s1).1, (and_mask s2).1, (and_mask s3).1,
      (shift_arith _).2.2.1, (shift_arith _).2.1, (shift_arith _).1,
      or_eq_add (s0 % 8 * 262144) (s1 % 64 * 4096) 18 (by omega) (by omega),
      or_eq_add (s0 % 8 * 262144 + s1 % 64 * 4096) (s2 % 64 * 64) 12 (by omega) (by omega),
      or_eq_add (s0 % 8 * 262144 + s1 % 64 * 4096 + s2 % 64 * 64) (s3 % 64) 6
        (by omega) (by omega)]
    omega
  rw [hr]
  generalize hrr : (s0 - 0xF0) * 262144 + (s1 - 0x80) * 4096 + (s2 - 0x80) * 64 + (s3 - 0x80) = r
  have hlo : 0x10000 ≤ r := by omega
  have hhi : r ≤ 0x10FFFF := by omega
  have hsur : ¬ (MaxRune < r ∨ (0xD800 ≤ r ∧ r ≤ 0xDFFF)) := by
    unfold MaxRune
    omega
  refine ⟨?_, by omega⟩
  unfold AppendRune
  rw [if_neg (by omega), if_neg (by omega)]
  dsimp only
  rw [if_neg hsur, if_neg (by omega), (shift_arith r).2.2.2.2.1, (shift_arith r).2.2.2.2.2.1,
    (shift_arith r).2.2.2.2.2.2,
    (and_mask (r % 256)).1, (and_mask (r / 64 % 256)).1, (and_mask (r / 4096 % 256)).1,
    or_eq_add 0xF0 _ 3 (by norm_num) (by omega), or_eq_add 0x80 _ 6 (by norm_num) (by omega),
    or_eq_add 0x80 _ 6 (by norm_num) (by omega), or_eq_add 0x80 _ 6 (by norm_num) (by omega)]
  have e1 : 0xF0 + r / 262144 % 256 = s0 := by omega
  have e2 : 0x80 + r / 4096 % 256 % 64 = s1 := by omega
  have e3 : 0x80 + r / 64 % 256 % 64 = s2 := by omega
  have e4 : 0x80 + r % 256 % 64 = s3 := by omega
  rw [e1, e2, e3, e4]


theorem DecodeRuneInString_encode (s0 : Nat) (t : List Nat) (h80 : 0x80 ≤ s0) :
    DecodeRuneInString (s0 :: t) = (RuneError, 1) ∨
    (AppendRune (DecodeRuneInString (s0 :: t)).1 =
        s0 :: t.take ((DecodeRuneInString (s0 :: t)).2 - 1) ∧
      0x80 ≤ (DecodeRuneInString (s0 :: t)).1) := by
  have e2 : (0x02 &&& 7 : Nat) = 2 ∧ (0x02 >>> 4 : Nat) = 0 := by decide
  have e13 : (0x13 &&& 7 : Nat) = 3 ∧ (0x13 >>> 4 : Nat) = 1 := by decide
  have e3 : (0x03 &&& 7 : Nat) = 3 ∧ (0x03 >>> 4 : Nat) = 0 := by decide
  have e23 : (0x23 &&& 7 : Nat) = 3 ∧ (0x23 >>> 4 : Nat) = 2 := by decide
  have e34 : (0x34 &&& 7 : Nat) = 4 ∧ (0x34 >>> 4 : Nat) = 3 := by decide
  have e4 : (0x04 &&& 7 : Nat) = 4 ∧ (0x04 >>> 4 : Nat) = 0 := by decide
  have e44 : (0x44 &&& 7 : Nat) = 4 ∧ (0x44 >>> 4 : Nat) = 4 := by decide
  have key : ∀ x sz lo hi, first s0 = x → x < 0xF0 → x &&& 7 = sz →
      acceptRanges (x >>> 4) = (lo, hi) → 0x80 ≤ lo → hi ≤ 0xBF →
      (sz = 2 → 0xC2 ≤ s0 ∧ s0 < 0xE0) →
      (sz = 3 → 0xE0 ≤ s0 ∧ s0 < 0xF0 ∧ (s0 = 0xE0 → 0xA0 ≤ lo) ∧ (s0 = 0xED → hi ≤ 0x9F)) →
      (sz = 4 → 0xF0 ≤ s0 ∧ s0 ≤ 0xF4 ∧ (s0 = 0xF0 → 0x90 ≤ lo) ∧ (s0 = 0xF4 → hi ≤ 0x8F)) →
      2 ≤ sz → sz ≤ 4 →
      (DecodeRuneInString (s0 :: t) = (RuneError, 1) ∨
        (AppendRune (DecodeRuneInString (s0 :: t)).1 =
            s0 :: t.take ((DecodeRuneInString (s0 :: t)).2 - 1) ∧
          0x80 ≤ (DecodeRuneInString (s0 :: t)).1)) := by
    intro x sz lo hi hf hlt hsz hacc hlo hhi c2 c3 c4 hge hle
    have hm := DecodeRuneInString_multi s0 t (by rw [hf]; exact hlt)
    rw [hf, hsz, hacc] at hm
    dsimp only at hm
    rcases hm with h | ⟨s1, t2, rfl, hs, h1, h2, hd⟩ | ⟨s1, s2, t3, rfl, hs, h1, h2, h3, h4, hd⟩ |
      ⟨s1, s2, s3, t4, rfl, hs, h1, h2, h3, h4, h5, h6, hd⟩
    · exact Or.inl h
    · right
      have hc := c2 (by omega)
      have := AppendRune_two s0 s1 hc.1 hc.2 (by omega) (by omega)
      rw [hd]
      exact ⟨by simpa using this.1, this.2⟩
    · right
      have hc := c3 hs
      have := AppendRune_three s0 s1 s2 hc.1 hc.2.1 (by omega) (by omega)
        (fun h => by have := hc.2.2.1 h; omega) (fun h => by have := hc.2.2.2 h; omega) h3 h4
      rw [hd]
      exact ⟨by simpa using this.1, this.2⟩
    · right
      have hc := c4 (by omega)
      have := AppendRune_four s0 s1 s2 s3 hc.1 hc.2.1 (by omega) (by omega)
        (fun h => by have := hc.2.2.1 h; omega) (fun h => by have := hc.2.2.2 h; omega)
        h3 h4 h5 h6
      rw [hd]
      exact ⟨by simpa using this.1, this.2⟩
  by_cases hinv : s0 < 0xC2 ∨ 0xF5 ≤ s0
  · left
    have hf := first_invalid s0 (by omega)
    unfold DecodeRuneInString
    dsimp only
    rw [hf]
    simp
  by_cases h2 : s0 < 0xE0
  · exact key 0x02 2 0x80 0xBF (first_two s0 (by omega) h2) (by norm_num) e2.1
      (by rw [e2.2]; rfl) (by norm_num) (by norm_num) (fun _ => by omega) (fun h => by omega)
      (fun h => by omega) (by norm_num) (by norm_num)
  by_cases hE0 : s0 = 0xE0
  · exact key 0x13 3 0xA0 0xBF (by rw [hE0]; exact first_special.1) (by norm_num) e13.1
      (by rw [e13.2]; rfl) (by norm_num) (by norm_num) (fun h => by omega)
      (fun _ => ⟨by omega, by omega, fun _ => by norm_num, fun h => by omega⟩)
      (fun h => by omega) (by norm_num) (by norm_num)
  by_cases hED : s0 = 0xED
  · exact key 0x23 3 0x80 0x9F (by rw [hED]; exact first_special.2.1) (by norm_num) e23.1
      (by rw [e23.2]; rfl) (by norm_num) (by norm_num) (fun h => by omega)
      (fun _ => ⟨by omega, by omega, fun h => by omega, fun _ => by norm_num⟩)
      (fun h => by omega) (by norm_num) (by norm_num)
  by_cases h3 : s0 < 0xF0
  · exact key 0x03 3 0x80 0xBF (first_three s0 (by omega) h3 hED) (by norm_num) e3.1
      (by rw [e3.2]; rfl) (by norm_num) (by norm_num) (fun h => by omega)
      (fun _ => ⟨by omega, by omega, fun h => by omega, fun h => by omega⟩)
      (fun h => by omega) (by norm_num) (by norm_num)
  by_cases hF0 : s0 = 0xF0
  · exact key 0x34 4 0x90 0xBF (by rw [hF0]; exact first_special.2.2.1) (by norm_num) e34.1
      (by rw [e34.2]; rfl) (by norm_num) (by norm_num) (fun h => by omega) (fun h => by omega)
      (fun _ => ⟨by omega, by omega, fun _ => by norm_num, fun h => by omega⟩)
      (by norm_num) (by norm_num)
  by_cases hF4 : s0 = 0xF4
  · exact key 0x44 4 0x80 0x8F (by rw [hF4]; exact first_special.2.2.2) (by norm_num) e44.1
      (by rw [e44.2]; rfl) (by norm_num) (by norm_num) (fun h => by omega) (fun h => by omega)
      (fun _ => ⟨by omega, by omega, fun h => by omega, fun _ => by norm_num⟩)
      (by norm_num) (by norm_num)
  · exact key 0x04 4 0x80 0xBF (first_four s0 (by omega) (by omega)) (by norm_num) e4.1
      (by rw [e4.2]; rfl) (by norm_num) (by norm_num) (fun h => by omega) (fun h => by omega)
      (fun _ => ⟨by omega, by omega, fun h => by omega, fun h => by omega⟩)
      (by norm_num) (by norm_num)


theorem unquoteBody_nil : unquoteBody [] = some [] := by
  rw [unquoteBody]

theorem unquoteBody_plain_cons (c : Nat) (rest : List Nat) (h34 : c ≠ 34) (h92 : c ≠ 92) :
    unquoteBody (c :: rest) = (unquoteBody rest).map fun l => c :: l := by
  cases rest with
  | nil =>
    rw [unquoteBody_nil, unquoteBody]
    simp [h34, h92]
  | cons e t =>
    rw [unquoteBody]
    simp [h34, h92]

theorem unquoteBody_simple (e b : Nat) (rest : List Nat) (h : unescapeSimple e = some b) :
    unquoteBody (92 :: e :: rest) = (unquoteBody rest).map fun l => b :: l := by
  rw [unquoteBody]
  simp [h]

theorem denotes_nil : Denotes [] [] := by
  intro rest
  simp only [List.nil_append]
  generalize unquoteBody rest = o
  cases o <;> rfl

theorem denotes_append {a b x y : List Nat} (ha : Denotes a x) (hb : Denotes b y) :
    Denotes (a ++ b) (x ++ y) := by
  intro rest
  rw [List.append_assoc, ha (b ++ rest), hb rest]
  generalize unquoteBody rest = o
  cases o <;> simp

theorem denotes_plain (l : List Nat) (hl : Plain l) : Denotes l l := by
  induction l with
  | nil => exact denotes_nil
  | cons c t ih =>
    intro rest
    have hc := hl c (List.mem_cons_self _ _)
    have ht : Plain t := fun x hx => hl x (List.mem_cons_of_mem _ hx)
    rw [List.cons_append, unquoteBody_plain_cons c _ hc.1 hc.2, ih ht rest]
    generalize unquoteBody rest = o
    cases o <;> simp

theorem denotes_simple (e b : Nat) (h : unescapeSimple e = some b) : Denotes [92, e] [b] := by
  intro rest
  exact unquoteBody_simple e b rest h

theorem hexVal_hexDigit (i : Nat) (h : i < 16) : hexVal (hexDigit i) = some i := by
  unfold hexDigit
  rw [lowerhex_eq]
  interval_cases i <;> decide

theorem denotes_hex_byte (a b : Nat) (ha : a < 16) (hb : b < 16) :
    Denotes [92, 120, hexDigit a, hexDigit b] [a * 16 + b] := by
  intro rest
  simp only [List.cons_append, List.nil_append]
  rw [unquoteBody]
  simp [unescapeSimple, hexNumber, hexVal_hexDigit a ha, hexVal_hexDigit b hb]


theorem denotes_hex_rune (e v : Nat) (ds : List Nat)
    (he : (e = 117 ∧ ds.length = 4) ∨ (e = 85 ∧ ds.length = 8))
    (hv : hexNumber ds = some v) (hvalid : ValidRune v = true) :
    Denotes (92 :: e :: ds) (AppendRune v) := by
  intro rest
  rw [List.cons_append, List.cons_append, unquoteBody]
  rcases he with ⟨rfl, hl⟩ | ⟨rfl, hl⟩
  · have ht : List.take 4 (ds ++ rest) = ds := by
      rw [← hl]
      exact List.take_left' rfl
    have hd : List.drop 4 (ds ++ rest) = rest := by
      rw [← hl]
      exact List.drop_left' rfl
    simp [unescapeSimple, ht, hd, hv, hvalid, hl]
  · have ht : List.take 8 (ds ++ rest) = ds := by
      rw [← hl]
      exact List.take_left' rfl
    have hd : List.drop 8 (ds ++ rest) = rest := by
      rw [← hl]
      exact List.drop_left' rfl
    simp [unescapeSimple, ht, hd, hv, hvalid, hl]

theorem nibble (r s : Nat) : (r >>> s) &&& 0xF = r / 2 ^ s % 16 := by
  rw [(and_mask _).2.2.1, Nat.shiftRight_eq_div_pow]

theorem hexNumber_four (r : Nat) (hr : r < 0x10000) :
    hexNumber ([12, 8, 4, 0].map fun s => hexDigit ((r >>> s) &&& 0xF)) = some r := by
  simp only [List.map, nibble, hexNumber, List.length_cons, List.length_nil]
  rw [hexVal_hexDigit _ (Nat.mod_lt _ (by norm_num)), hexVal_hexDigit _ (Nat.mod_lt _ (by norm_num)),
    hexVal_hexDigit _ (Nat.mod_lt _ (by norm_num)), hexVal_hexDigit _ (Nat.mod_lt _ (by norm_num))]
  simp only [Option.some_bind, Option.map_some', Option.some.injEq]
  omega

theorem hexNumber_eight (r : Nat) (hr : r < 0x100000000) :
    hexNumber ([28, 24, 20, 16, 12, 8, 4, 0].map fun s => hexDigit ((r >>> s) &&& 0xF)) =
      some r := by
  simp only [List.map, nibble, hexNumber, List.length_cons, List.length_nil]
  rw [hexVal_hexDigit _ (Nat.mod_lt _ (by norm_num)), hexVal_hexDigit _ (Nat.mod_lt _ (by norm_num)),
    hexVal_hexDigit _ (Nat.mod_lt _ (by norm_num)), hexVal_hexDigit _ (Nat.mod_lt _ (by norm_num)),
    hexVal_hexDigit _ (Nat.mod_lt _ (by norm_num)), hexVal_hexDigit _ (Nat.mod_lt _ (by norm_num)),
    hexVal_hexDigit _ (Nat.mod_lt _ (by norm_num)), hexVal_hexDigit _ (Nat.mod_lt _ (by norm_num))]
  simp only [Option.some_bind, Option.map_some', Option.some.injEq]
  omega

theorem AppendRune_validate (r : Nat) :
    AppendRune (if ValidRune r = true then r else 0xFFFD) = AppendRune r ∧
    ValidRune (if ValidRune r = true then r else 0xFFFD) = true := by
  by_cases hv : ValidRune r = true
  · rw [if_pos hv]
    exact ⟨rfl, hv⟩
  · rw [if_neg hv]
    refine ⟨?_, by decide⟩
    have hr : MaxRune < r ∨ (0xD800 ≤ r ∧ r ≤ 0xDFFF) := by
      unfold ValidRune at hv
      simp only [Bool.or_eq_true, Bool.and_eq_true, decide_eq_true_eq, not_or, not_and,
        not_lt, not_le] at hv
      unfold MaxRune at *
      omega
    have h1 : ¬ r ≤ 0x7F := by
      unfold MaxRune at hr
      omega
    have h2 : ¬ r ≤ 0x7FF := by
      unfold MaxRune at hr
      omega
    have e : AppendRune r = AppendRune 0xFFFD := by
      conv => lhs; unfold AppendRune
      rw [if_neg h1, if_neg h2]
      dsimp only
      rw [if_pos hr]
      decide
    rw [e]


theorem AppendRune_ascii (r : Nat) (h : r < 0x80) : AppendRune r = [r] := by
  unfold AppendRune
  rw [if_pos (by omega), Nat.mod_eq_of_lt (by omega)]

theorem appendEscapedRune_denotes (isPrint : Nat → Bool) (r : Nat) :
    Denotes (appendEscapedRune isPrint r 34) (AppendRune r) := by
  obtain ⟨ea, eb, ef, en, er, et, ev, ex, eu, eU⟩ := str_escapes
  unfold appendEscapedRune
  rw [ea, eb, ef, en, er, et, ev, ex, eu, eU]
  by_cases h1 : r = 34 ∨ r = 92
  · rw [if_pos h1, AppendRune_ascii r (by omega), Nat.mod_eq_of_lt (by omega)]
    rcases h1 with rfl | rfl
    · exact denotes_simple 34 34 (by decide)
    · exact denotes_simple 92 92 (by decide)
  rw [if_neg h1]
  by_cases h2 : isPrint r = true
  · rw [if_pos h2]
    exact denotes_plain _ (AppendRune_plain r (fun h => h1 (Or.inl h))
      (fun h => h1 (Or.inr h)))
  rw [if_neg h2]
  by_cases h3 : r = 7
  · rw [if_pos h3, h3]
    exact denotes_simple 97 7 (by decide)
  rw [if_neg h3]
  by_cases h4 : r = 8
  · rw [if_pos h4, h4]
    exact denotes_simple 98 8 (by decide)
  rw [if_neg h4]
  by_cases h5 : r = 12
  · rw [if_pos h5, h5]
    exact denotes_simple 102 12 (by decide)
  rw [if_neg h5]
  by_cases h6 : r = 10
  · rw [if_pos h6, h6]
    exact denotes_simple 110 10 (by decide)
  rw [if_neg h6]
  by_cases h7 : r = 13
  · rw [if_pos h7, h7]
    exact denotes_simple 114 13 (by decide)
  rw [if_neg h7]
  by_cases h8 : r = 9
  · rw [if_pos h8, h8]
    exact denotes_simple 116 9 (by decide)
  rw [if_neg h8]
  by_cases h9 : r = 11
  · rw [if_pos h9, h9]
    exact denotes_simple 118 11 (by decide)
  rw [if_neg h9]
  by_cases h10 : r < 32 ∨ r = 0x7F
  · rw [if_pos h10, AppendRune_ascii r (by omega), Nat.mod_eq_of_lt (by omega : r < 256),
      (shift_arith r).2.2.2.1, (and_mask r).2.2.1]
    have := denotes_hex_byte (r / 16) (r % 16) (by omega) (by omega)
    rw [Nat.div_add_mod' r 16] at this
    exact this
  rw [if_neg h10]
  dsimp only
  obtain ⟨hA, hV⟩ := AppendRune_validate r
  rw [← hA]
  generalize (if ValidRune r = true then r else 0xFFFD) = q at hV ⊢
  by_cases h11 : q < 0x10000
  · rw [if_pos h11]
    exact denotes_hex_rune 117 q _ (Or.inl ⟨rfl, rfl⟩) (hexNumber_four q h11) hV
  · rw [if_neg h11]
    have hq : q < 0x100000000 := by
      unfold ValidRune MaxRune at hV
      simp only [Bool.or_eq_true, Bool.and_eq_true, decide_eq_true_eq] at hV
      omega
    exact denotes_hex_rune 85 q _ (Or.inr ⟨rfl, rfl⟩) (hexNumber_eight q hq) hV


theorem quoteBody_denotes (isPrint : Nat → Bool) (s : List Nat) (hb : ∀ b ∈ s, b < 256) :
    Denotes (quoteBody isPrint 34 s) s := by
  generalize hn : s.length = n
  induction n using Nat.strong_induction_on generalizing s with
  | _ n ih =>
    cases s with
    | nil =>
      rw [quoteBody]
      exact denotes_nil
    | cons s0 t =>
      have hs0 : s0 < 256 := hb s0 (List.mem_cons_self _ _)
      have ht : ∀ k, ∀ b ∈ t.drop k, b < 256 := fun k b hbm =>
        hb b (List.mem_cons_of_mem _ (List.mem_of_mem_drop hbm))
      rw [quoteBody_cons]
      have hchunk : Denotes
          (if (if RuneSelf ≤ s0 then DecodeRuneInString (s0 :: t) else (s0, 1)).2 = 1 ∧
              (if RuneSelf ≤ s0 then DecodeRuneInString (s0 :: t) else (s0, 1)).1 = RuneError then
            str "\\x" ++ [hexDigit (s0 >>> 4), hexDigit (s0 &&& 0xF)]
          else appendEscapedRune isPrint
            (if RuneSelf ≤ s0 then DecodeRuneInString (s0 :: t) else (s0, 1)).1 34)
          (s0 :: t.take ((if RuneSelf ≤ s0 then DecodeRuneInString (s0 :: t)
            else (s0, 1)).2 - 1)) := by
        have hhex : Denotes (str "\\x" ++ [hexDigit (s0 >>> 4), hexDigit (s0 &&& 0xF)]) [s0] := by
          rw [str_escapes.2.2.2.2.2.2.2.1, (shift_arith s0).2.2.2.1, (and_mask s0).2.2.1]
          have := denotes_hex_byte (s0 / 16) (s0 % 16) (by omega) (by omega)
          rw [Nat.div_add_mod' s0 16] at this
          exact this
        by_cases hself : RuneSelf ≤ s0
        · rw [if_pos hself]
          by_cases hc : (DecodeRuneInString (s0 :: t)).2 = 1 ∧
              (DecodeRuneInString (s0 :: t)).1 = RuneError
          · rw [if_pos hc, hc.1]
            exact hhex
          · rw [if_neg hc]
            rcases DecodeRuneInString_encode s0 t hself with hd | ⟨hd, _⟩
            · rw [hd] at hc
              exact absurd ⟨rfl, rfl⟩ hc
            · rw [← hd]
              exact appendEscapedRune_denotes isPrint _
        · rw [if_neg hself]
          have hlt : s0 < 0x80 := by
            unfold RuneSelf at hself
            omega
          have hne : ¬ ((s0, 1).2 = 1 ∧ (s0, 1).1 = RuneError) := by
            unfold RuneError
            simp only [true_and]
            omega
          rw [if_neg hne]
          have := appendEscapedRune_denotes isPrint s0
          rw [AppendRune_ascii s0 hlt] at this
          simpa using this
      generalize (if RuneSelf ≤ s0 then DecodeRuneInString (s0 :: t) else (s0, 1)) = rw at hchunk ⊢
      have hrest := ih (t.drop (rw.2 - 1)).length (by
        rw [← hn, List.length_drop, List.length_cons]
        omega) (t.drop (rw.2 - 1)) (ht _) rfl
      have := denotes_append hchunk hrest
      rw [List.cons_append, List.take_append_drop] at this
      exact this

/-- Read by the rules of `unquoteBody`, the text that `%q` writes between the quotes
denotes the value itself, for every value (a sequence of bytes). -/
theorem unquoteBody_quoteBody (isPrint : Nat → Bool) (s : List Nat) (hb : ∀ b ∈ s, b < 256) :
    unquoteBody (quoteBody isPrint 34 s) = some s := by
  have := quoteBody_denotes isPrint s hb []
  rw [List.append_nil, unquoteBody_nil] at this
  simpa using this

/-- A value of printable ASCII characters is written between the quotes as it is,
with a backslash before each double quote and each backslash. -/
theorem quoteBody_printable (isPrint : Nat → Bool) (s : List Nat)
    (hs : ∀ b ∈ s, b < 0x80 ∧ isPrint b = true) :
    quoteBody isPrint 34 s = backslashEscaped s := by
  induction s with
  | nil =>
    rw [quoteBody]
    rfl
  | cons s0 t ih =>
    have h0 := hs s0 (List.mem_cons_self _ _)
    have ht : ∀ b ∈ t, b < 0x80 ∧ isPrint b = true := fun b hbm =>
      hs b (List.mem_cons_of_mem _ hbm)
    have hself : ¬ RuneSelf ≤ s0 := by
      unfold RuneSelf
      omega
    have hne : ¬ ((s0, 1).2 = 1 ∧ (s0, 1).1 = RuneError) := by
      unfold RuneError
      simp only [true_and]
      omega
    rw [quoteBody_cons, if_neg hself, if_neg hne]
    simp only [Nat.sub_self, List.drop_zero]
    have e : backslashEscaped (s0 :: t) =
        (if s0 = 34 ∨ s0 = 92 then [92, s0] else [s0]) ++ backslashEscaped t := rfl
    rw [ih ht, e]
    unfold appendEscapedRune
    by_cases hq : s0 = 34 ∨ s0 = 92
    · rw [if_pos hq, if_pos hq, Nat.mod_eq_of_lt (by omega)]
    · rw [if_neg hq, if_neg hq, if_pos h0.2, AppendRune_ascii s0 h0.1]

theorem readValues_script (isPrint : Nat → Bool) (msg appName title : GoString)
    (h1 : ∀ b ∈ msg, b < 256) (h2 : ∀ b ∈ appName, b < 256) (h3 : ∀ b ∈ title, b < 256) :
    readValues (str "display notification " ++ Quote isPrint msg ++ str " with title "
        ++ Quote isPrint appName ++ str " subtitle " ++ Quote isPrint title) =
      some (msg, appName, title) := by
  unfold readValues
  rw [readNotification_script, Option.some_bind]
  dsimp only
  rw [unquoteBody_quoteBody isPrint msg h1, unquoteBody_quoteBody isPrint appName h2,
    unquoteBody_quoteBody isPrint title h3]
  rfl


/-! ## Quoting: printable text stands in the literal as it is -/

theorem DecodeRuneInString_of_two (s0 s1 : Nat) (t : List Nat) (hx : first s0 < 0xF0)
    (hsz : first s0 &&& 7 = 2) (h1 : (acceptRanges (first s0 >>> 4)).1 ≤ s1)
    (h2 : s1 ≤ (acceptRanges (first s0 >>> 4)).2) :
    DecodeRuneInString (s0 :: s1 :: t) = (((s0 &&& 0x1F) <<< 6) ||| (s1 &&& 0x3F), 2) := by
  have hnF : ¬ 0xF0 ≤ first s0 := by omega
  unfold DecodeRuneInString
  dsimp only
  rw [if_neg hnF, hsz, if_neg (by simp), if_neg (by omega), if_pos (le_refl 2)]

theorem DecodeRuneInString_of_three (s0 s1 s2 : Nat) (t : List Nat) (hx : first s0 < 0xF0)
    (hsz : first s0 &&& 7 = 3) (h1 : (acceptRanges (first s0 >>> 4)).1 ≤ s1)
    (h2 : s1 ≤ (acceptRanges (first s0 >>> 4)).2) (h3 : 0x80 ≤ s2) (h4 : s2 ≤ 0xBF) :
    DecodeRuneInString (s0 :: s1 :: s2 :: t) =
      (((s0 &&& 0x0F) <<< 12) ||| ((s1 &&& 0x3F) <<< 6) ||| (s2 &&& 0x3F), 3) := by
  have hnF : ¬ 0xF0 ≤ first s0 := by omega
  unfold DecodeRuneInString
  dsimp only
  rw [if_neg hnF, hsz, if_neg (by simp), if_neg (by omega), if_neg (by norm_num),
    if_neg (by omega), if_pos (le_refl 3)]

theorem DecodeRuneInString_of_four (s0 s1 s2 s3 : Nat) (t : List Nat) (hx : first s0 < 0xF0)
    (hsz : first s0 &&& 7 = 4) (h1 : (acceptRanges (first s0 >>> 4)).1 ≤ s1)
    (h2 : s1 ≤ (acceptRanges (first s0 >>> 4)).2) (h3 : 0x80 ≤ s2) (h4 : s2 ≤ 0xBF)
    (h5 : 0x80 ≤ s3) (h6 : s3 ≤ 0xBF) :
    DecodeRuneInString (s0 :: s1 :: s2 :: s3 :: t) =
      (((s0 &&& 0x07) <<< 18) ||| ((s1 &&& 0x3F) <<< 12) ||| ((s2 &&& 0x3F) <<< 6)
        ||| (s3 &&& 0x3F), 4) := by
  have hnF : ¬ 0xF0 ≤ first s0 := by omega
  unfold DecodeRuneInString
  dsimp only
  rw [if_neg hnF, hsz, if_neg (by simp), if_neg (by omega), if_neg (by norm_num),
    if_neg (by omega), if_neg (by norm_num), if_neg (by omega)]


theorem DecodeRuneInString_AppendRune (r : Nat) (hv : ValidRune r = true) (h80 : 0x80 ≤ r)
    (rest : List Nat) :
    ∃ b0 bs, AppendRune r = b0 :: bs ∧ 0x80 ≤ b0 ∧ 0 < bs.length ∧
      DecodeRuneInString (b0 :: (bs ++ rest)) = (r, bs.length + 1) := by
  have e2 : (0x02 &&& 7 : Nat) = 2 ∧ (0x02 >>> 4 : Nat) = 0 := by decide
  have e13 : (0x13 &&& 7 : Nat) = 3 ∧ (0x13 >>> 4 : Nat) = 1 := by decide
  have e3 : (0x03 &&& 7 : Nat) = 3 ∧ (0x03 >>> 4 : Nat) = 0 := by decide
  have e23 : (0x23 &&& 7 : Nat) = 3 ∧ (0x23 >>> 4 : Nat) = 2 := by decide
  have e34 : (0x34 &&& 7 : Nat) = 4 ∧ (0x34 >>> 4 : Nat) = 3 := by decide
  have e4 : (0x04 &&& 7 : Nat) = 4 ∧ (0x04 >>> 4 : Nat) = 0 := by decide
  have e44 : (0x44 &&& 7 : Nat) = 4 ∧ (0x44 >>> 4 : Nat) = 4 := by decide
  have hvr : r < 0xD800 ∨ (0xDFFF < r ∧ r ≤ 0x10FFFF) := by
    unfold ValidRune MaxRune at hv
    simpa only [Bool.or_eq_true, Bool.and_eq_true, decide_eq_true_eq] using hv
  have hsur : ¬ (MaxRune < r ∨ (0xD800 ≤ r ∧ r ≤ 0xDFFF)) := by
    unfold MaxRune
    omega
  by_cases c2 : r ≤ 0x7FF
  · have hA : AppendRune r = [0xC0 + r / 64, 0x80 + r % 64] := by
      unfold AppendRune
      rw [if_neg (by omega), if_pos c2, (shift_arith r).2.2.2.2.1, (and_mask (r % 256)).1,
        or_eq_add 0xC0 _ 6 (by norm_num) (by omega), or_eq_add 0x80 _ 6 (by norm_num) (by omega)]
      have e1 : r / 64 % 256 = r / 64 := by omega
      have e2 : r % 256 % 64 = r % 64 := by omega
      rw [e1, e2]
    have hf := first_two (0xC0 + r / 64) (by omega) (by omega)
    refine ⟨_, _, hA, by omega, by simp, ?_⟩
    rw [List.singleton_append, DecodeRuneInString_of_two (0xC0 + r / 64) (0x80 + r % 64) rest
      (by rw [hf]; norm_num)
      (by rw [hf]; exact e2.1) (by rw [hf, e2.2]; exact (by omega : 0x80 ≤ 0x80 + r % 64))
      (by rw [hf, e2.2]; exact (by omega : 0x80 + r % 64 ≤ 0xBF))]
    rw [(and_mask _).2.1, (and_mask _).1, (shift_arith _).1,
      or_eq_add ((0xC0 + r / 64) % 32 * 64) _ 6 (by omega) (by omega)]
    simp only [List.length_singleton, Prod.mk.injEq, and_true]
    omega
  by_cases c3 : r ≤ 0xFFFF
  · have hA : AppendRune r = [0xE0 + r / 4096, 0x80 + r / 64 % 64, 0x80 + r % 64] := by
      unfold AppendRune
      rw [if_neg (by omega), if_neg c2]
      dsimp only
      rw [if_neg hsur, if_pos c3, (shift_arith r).2.2.2.2.1, (shift_arith r).2.2.2.2.2.1,
        (and_mask (r % 256)).1, (and_mask (r / 64 % 256)).1,
        or_eq_add 0xE0 _ 4 (by norm_num) (by omega), or_eq_add 0x80 _ 6 (by norm_num) (by omega),
        or_eq_add 0x80 _ 6 (by norm_num) (by omega)]
      have e1 : r / 4096 % 256 = r / 4096 := by omega
      have e2 : r / 64 % 256 % 64 = r / 64 % 64 := by omega
      have e3 : r % 256 % 64 = r % 64 := by omega
      rw [e1, e2, e3]
    refine ⟨_, _, hA, by omega, by simp, ?_⟩
    have hdec : ((0xE0 + r / 4096) &&& 0x0F) <<< 12 ||| ((0x80 + r / 64 % 64) &&& 0x3F) <<< 6
        ||| ((0x80 + r % 64) &&& 0x3F) = r := by
      rw [(and_mask _).2.2.1, (and_mask (0x80 + r / 64 % 64)).1, (and_mask (0x80 + r % 64)).1,
        (shift_arith _).2.1, (shift_arith _).1,
        or_eq_add ((0xE0 + r / 4096) % 16 * 4096) ((0x80 + r / 64 % 64) % 64 * 64) 12
          (by omega) (by omega),
        or_eq_add ((0xE0 + r / 4096) % 16 * 4096 + (0x80 + r / 64 % 64) % 64 * 64)
          ((0x80 + r % 64) % 64) 6 (by omega) (by omega)]
      omega
    have hfin : ∀ x lo hi, first (0xE0 + r / 4096) = x → x < 0xF0 → x &&& 7 = 3 →
        acceptRanges (x >>> 4) = (lo, hi) → lo ≤ 0x80 + r / 64 % 64 →
        0x80 + r / 64 % 64 ≤ hi →
        DecodeRuneInString ((0xE0 + r / 4096) ::
          ([0x80 + r / 64 % 64, 0x80 + r % 64] ++ rest)) =
          (r, [0x80 + r / 64 % 64, 0x80 + r % 64].length + 1) := by
      intro x lo hi hf hlt hsz hacc hlo hhi
      rw [List.cons_append, List.singleton_append,
        DecodeRuneInString_of_three (0xE0 + r / 4096) (0x80 + r / 64 % 64) (0x80 + r % 64) rest
          (by rw [hf]; exact hlt) (by rw [hf]; exact hsz)
          (by rw [hf, hacc]; exact hlo) (by rw [hf, hacc]; exact hhi) (by omega) (by omega),
        hdec]
      rfl
    by_cases hE0 : r / 4096 = 0
    · exact hfin 0x13 0xA0 0xBF (by rw [hE0]; exact first_special.1) (by norm_num) e13.1
        (by rw [e13.2]; rfl) (by omega) (by omega)
    by_cases hED : r / 4096 = 13
    · exact hfin 0x23 0x80 0x9F (by rw [hED]; exact first_special.2.1) (by norm_num) e23.1
        (by rw [e23.2]; rfl) (by omega) (by omega)
    · exact hfin 0x03 0x80 0xBF (first_three _ (by omega) (by omega) (by omega)) (by norm_num)
        e3.1 (by rw [e3.2]; rfl) (by omega) (by omega)
  · have c4 : r ≤ 0x10FFFF := by omega
    have hA : AppendRune r =
        [0xF0 + r / 262144, 0x80 + r / 4096 % 64, 0x80 + r / 64 % 64, 0x80 + r % 64] := by
      unfold AppendRune
      rw [if_neg (by omega), if_neg c2]
      dsimp only
      rw [if_neg hsur, if_neg c3, (shift_arith r).2.2.2.2.1, (shift_arith r).2.2.2.2.2.1,
        (shift_arith r).2.2.2.2.2.2,
        (and_mask (r % 256)).1, (and_mask (r / 64 % 256)).1, (and_mask (r / 4096 % 256)).1,
        or_eq_add 0xF0 _ 3 (by norm_num) (by omega), or_eq_add 0x80 _ 6 (by norm_num) (by omega),
        or_eq_add 0x80 _ 6 (by norm_num) (by omega), or_eq_add 0x80 _ 6 (by norm_num) (by omega)]
      have e1 : r / 262144 % 256 = r / 262144 := by omega
      have e2 : r / 4096 % 256 % 64 = r / 4096 % 64 := by omega
      have e3 : r / 64 % 256 % 64 = r / 64 % 64 := by omega
      have e4 : r % 256 % 64 = r % 64 := by omega
      rw [e1, e2, e3, e4]
    refine ⟨_, _, hA, by omega, by simp, ?_⟩
    have hdec : ((0xF0 + r / 262144) &&& 0x07) <<< 18 |||
        ((0x80 + r / 4096 % 64) &&& 0x3F) <<< 12 ||| ((0x80 + r / 64 % 64) &&& 0x3F) <<< 6
        ||| ((0x80 + r % 64) &&& 0x3F) = r := by
      rw [(and_mask _).2.2.2, (and_mask (0x80 + r / 4096 % 64)).1,
        (and_mask (0x80 + r / 64 % 64)).1, (and_mask (0x80 + r % 64)).1,
        (shift_arith _).2.2.1, (shift_arith _).2.1, (shift_arith _).1,
        or_eq_add ((0xF0 + r / 262144) % 8 * 262144) ((0x80 + r / 4096 % 64) % 64 * 4096) 18
          (by omega) (by omega),
        or_eq_add ((0xF0 + r / 262144) % 8 * 262144 + (0x80 + r / 4096 % 64) % 64 * 4096)
          ((0x80 + r / 64 % 64) % 64 * 64) 12 (by omega) (by omega),
        or_eq_add ((0xF0 + r / 262144) % 8 * 262144 + (0x80 + r / 4096 % 64) % 64 * 4096
          + (0x80 + r / 64 % 64) % 64 * 64) ((0x80 + r % 64) % 64) 6 (by omega) (by omega)]
      omega
    have hfin : ∀ x lo hi, first (0xF0 + r / 262144) = x → x < 0xF0 → x &&& 7 = 4 →
        acceptRanges (x >>> 4) = (lo, hi) → lo ≤ 0x80 + r / 4096 % 64 →
        0x80 + r / 4096 % 64 ≤ hi →
        DecodeRuneInString ((0xF0 + r / 262144) ::
          ([0x80 + r / 4096 % 64, 0x80 + r / 64 % 64, 0x80 + r % 64] ++ rest)) =
          (r, [0x80 + r / 4096 % 64, 0x80 + r / 64 % 64, 0x80 + r % 64].length + 1) := by
      intro x lo hi hf hlt hsz hacc hlo hhi
      rw [List.cons_append, List.cons_append, List.singleton_append,
        DecodeRuneInString_of_four (0xF0 + r / 262144) (0x80 + r / 4096 % 64)
          (0x80 + r / 64 % 64) (0x80 + r % 64) rest (by rw [hf]; exact hlt) (by rw [hf]; exact hsz)
          (by rw [hf, hacc]; exact hlo) (by rw [hf, hacc]; exact hhi) (by omega) (by omega)
          (by omega) (by omega),
        hdec]
      rfl
    by_cases hF0 : r / 262144 = 0
    · exact hfin 0x34 0x90 0xBF (by rw [hF0]; exact first_special.2.2.1) (by norm_num) e34.1
        (by rw [e34.2]; rfl) (by omega) (by omega)
    by_cases hF4 : r / 262144 = 4
    · exact hfin 0x44 0x80 0x8F (by rw [hF4]; exact first_special.2.2.2) (by norm_num) e44.1
        (by rw [e44.2]; rfl) (by omega) (by omega)
    · exact hfin 0x04 0x80 0xBF (first_four _ (by omega) (by omega)) (by norm_num)
        e4.1 (by rw [e4.2]; rfl) (by omega) (by omega)


theorem backslashEscaped_append (a b : List Nat) :
    backslashEscaped (a ++ b) = backslashEscaped a ++ backslashEscaped b := by
  induction a with
  | nil => rfl
  | cons c t ih =>
    have e : ∀ l, backslashEscaped (c :: l) =
        (if c = 34 ∨ c = 92 then [92, c] else [c]) ++ backslashEscaped l := fun _ => rfl
    rw [List.cons_append, e, e, ih, List.append_assoc]

theorem backslashEscaped_plain (l : List Nat) (hl : Plain l) : backslashEscaped l = l := by
  induction l with
  | nil => rfl
  | cons c t ih =>
    have hc := hl c (List.mem_cons_self _ _)
    have ht : Plain t := fun x hx => hl x (List.mem_cons_of_mem _ hx)
    have e : backslashEscaped (c :: t) =
        (if c = 34 ∨ c = 92 then [92, c] else [c]) ++ backslashEscaped t := rfl
    rw [e, ih ht, if_neg (by
      intro h
      rcases h with h | h
      · exact hc.1 h
      · exact hc.2 h)]
    rfl

theorem quoteBody_rune (isPrint : Nat → Bool) (r : Nat) (rest : List Nat)
    (hv : ValidRune r = true) (hp : isPrint r = true) :
    quoteBody isPrint 34 (AppendRune r ++ rest) =
      backslashEscaped (AppendRune r) ++ quoteBody isPrint 34 rest := by
  by_cases h80 : r < 0x80
  · have hself : ¬ RuneSelf ≤ r := by
      unfold RuneSelf
      omega
    have hne : ¬ ((r, 1).2 = 1 ∧ (r, 1).1 = RuneError) := by
      unfold RuneError
      simp only [true_and]
      omega
    rw [AppendRune_ascii r h80, List.singleton_append, quoteBody_cons, if_neg hself, if_neg hne]
    simp only [Nat.sub_self, List.drop_zero]
    have e : backslashEscaped [r] = (if r = 34 ∨ r = 92 then [92, r] else [r]) := by
      show (if r = 34 ∨ r = 92 then [92, r] else [r]) ++ backslashEscaped [] = _
      rw [show backslashEscaped [] = [] from rfl, List.append_nil]
    rw [e]
    unfold appendEscapedRune
    by_cases hq : r = 34 ∨ r = 92
    · rw [if_pos hq, if_pos hq, Nat.mod_eq_of_lt (by omega)]
    · rw [if_neg hq, if_neg hq, if_pos hp, AppendRune_ascii r h80]
  · obtain ⟨b0, bs, hA, hb0, hbs, hd⟩ :=
      DecodeRuneInString_AppendRune r hv (by omega) rest
    have hq : ¬ (r = 34 ∨ r = 92) := by omega
    have hplain := AppendRune_plain r (by omega) (by omega)
    rw [backslashEscaped_plain _ hplain]
    have hchunk : appendEscapedRune isPrint r 34 = AppendRune r := by
      unfold appendEscapedRune
      rw [if_neg hq, if_pos hp]
    rw [hA] at hchunk ⊢
    have hself : RuneSelf ≤ b0 := by
      unfold RuneSelf
      omega
    rw [List.cons_append, quoteBody_cons, if_pos hself, hd]
    have hne : ¬ ((r, bs.length + 1).2 = 1 ∧ (r, bs.length + 1).1 = RuneError) := by
      simp only
      omega
    rw [if_neg hne]
    simp only [Nat.add_sub_cancel, List.drop_left]
    rw [hchunk]

/-- A value that is UTF-8 text of printable runes is written between the quotes as
it is, with a backslash before each double quote and each backslash. -/
theorem quoteBody_printable_text (isPrint : Nat → Bool) (rs : List Nat)
    (hrs : ∀ r ∈ rs, ValidRune r = true ∧ isPrint r = true) :
    quoteBody isPrint 34 (encodeRunes rs) = backslashEscaped (encodeRunes rs) := by
  induction rs with
  | nil =>
    show quoteBody isPrint 34 [] = _
    rw [quoteBody]
    rfl
  | cons r t ih =>
    have hr := hrs r (List.mem_cons_self _ _)
    have ht : ∀ x ∈ t, ValidRune x = true ∧ isPrint x = true := fun x hx =>
      hrs x (List.mem_cons_of_mem _ hx)
    show quoteBody isPrint 34 (AppendRune r ++ encodeRunes t) =
      backslashEscaped (AppendRune r ++ encodeRunes t)
    rw [quoteBody_rune isPrint r _ hr.1 hr.2, ih ht, backslashEscaped_append]


theorem Quote_example :
    Quote (fun r => decide (32 ≤ r ∧ r < 127)) (str "a\"b\\c\n") = str "\"a\\\"b\\\\c\\n\"" := by
  have h : str "a\"b\\c\n" = [97, 34, 98, 92, 99, 10] := by decide
  have h2 : str "\"a\\\"b\\\\c\\n\"" = [34, 97, 92, 34, 98, 92, 92, 99, 92, 110, 34] := by decide
  rw [h, h2]
  simp [Quote, quoteBody, RuneSelf, RuneError, appendEscapedRune, AppendRune, str]

/-- C7: for every `appName`, `title` and `msg`, when `exec.LookPath("osascript")` finds
the executable `osa`, `ShowMessage` on macOS runs exactly one command: `osa` with the
two arguments `-e` and the script
`display notification <msg> with title <appName> subtitle <title>`,
in which each value is written by `%q`: between two double quotes, with every double
quote and every backslash of the value, wherever it stands, written as a backslash
followed by that character. Read back, each quoted value is one literal that ends at
the closing quote written after it, and the script as a whole has the fixed shape
with the three literals for `msg`, `appName` and `title`, in this order.
The text between the quotes is the value: a value of printable ASCII characters,
and more generally a value that is UTF-8 text of printable runes, stands there as
it is, only with the backslashes before its quotes and backslashes; and for every
value whatever (any bytes), undoing the escapes of the literal gives back exactly the
bytes of the value, so the script read back yields `msg`, `appName` and `title`
themselves, in this order. -/
theorem ShowMessage_darwin_script (isPrint : Nat → Bool)
    (LookPath : GoString → Except GoError GoString)
    (CmdRun : GoString → List GoString → Option GoError)
    (osa appName title msg : GoString) (hPath : LookPath (str "osascript") = .ok osa) :
    (Darwin.ShowMessage isPrint LookPath CmdRun appName title msg).events.filter Event.isRun =
      [.run osa [str "-e",
        str "display notification " ++ Quote isPrint msg ++ str " with title "
          ++ Quote isPrint appName ++ str " subtitle " ++ Quote isPrint title]] ∧
    (∀ v, Quote isPrint v = [34] ++ quoteBody isPrint 34 v ++ [34]) ∧
    (∀ a b, quoteBody isPrint 34 (a ++ 34 :: b) =
      quoteBody isPrint 34 a ++ [92, 34] ++ quoteBody isPrint 34 b) ∧
    (∀ a b, quoteBody isPrint 34 (a ++ 92 :: b) =
      quoteBody isPrint 34 a ++ [92, 92] ++ quoteBody isPrint 34 b) ∧
    (∀ v rest, readLiteral false (quoteBody isPrint 34 v ++ 34 :: rest) =
      some (quoteBody isPrint 34 v, rest)) ∧
    readNotification (str "display notification " ++ Quote isPrint msg ++ str " with title "
        ++ Quote isPrint appName ++ str " subtitle " ++ Quote isPrint title) =
      some (quoteBody isPrint 34 msg, quoteBody isPrint 34 appName,
        quoteBody isPrint 34 title) ∧
    (∀ v, (∀ b ∈ v, b < 0x80 ∧ isPrint b = true) →
      Quote isPrint v = [34] ++ backslashEscaped v ++ [34]) ∧
    (∀ v, (∀ b ∈ v, b < 256) → unquoteBody (quoteBody isPrint 34 v) = some v) ∧
    ((∀ b ∈ msg, b < 256) → (∀ b ∈ appName, b < 256) → (∀ b ∈ title, b < 256) →
      readValues (str "display notification " ++ Quote isPrint msg ++ str " with title "
          ++ Quote isPrint appName ++ str " subtitle " ++ Quote isPrint title) =
        some (msg, appName, title)) ∧
    (∀ rs, (∀ r ∈ rs, ValidRune r = true ∧ isPrint r = true) →
      Quote isPrint (encodeRunes rs) = [34] ++ backslashEscaped (encodeRunes rs) ++ [34]) := by
  refine ⟨?_, fun _ => rfl, ?_, ?_, readLiteral_quoteBody isPrint,
    readNotification_script isPrint msg appName title, ?_,
    unquoteBody_quoteBody isPrint, readValues_script isPrint msg appName title, ?_⟩
  · unfold Darwin.ShowMessage
    rw [hPath]
    dsimp only
    split <;> simp [Event.isRun]
  · intro a b
    rw [quoteBody_append_ascii isPrint 34 34 (by norm_num), quoteBody_quote_cons,
      List.append_assoc]
  · intro a b
    rw [quoteBody_append_ascii isPrint 34 92 (by norm_num), quoteBody_backslash_cons,
      List.append_assoc]
  · intro v hv
    unfold Quote
    rw [quoteBody_printable isPrint v hv]
  · intro rs hrs
    unfold Quote
    rw [quoteBody_printable_text isPrint rs hrs]

/-- Witness for C7: with `osascript` found at `/usr/bin/osascript`, one command is run;
the title `say "hi"` is written as the literal `"say \"hi\""`, the text `café` is
written as it is, and the script read back yields the message, the application name
and the title. -/
theorem ShowMessage_darwin_script_witness :
    (Darwin.ShowMessage (fun r => decide ((32 ≤ r ∧ r < 127) ∨ 0xA0 < r))
        (fun _ => .ok (str "/usr/bin/osascript")) (fun _ _ => none)
        (str "App") (str "say \"hi\"") (str "a\\b")).events.filter Event.isRun =
      [.run (str "/usr/bin/osascript") [str "-e",
        str "display notification "
          ++ Quote (fun r => decide ((32 ≤ r ∧ r < 127) ∨ 0xA0 < r)) (str "a\\b")
          ++ str " with title "
          ++ Quote (fun r => decide ((32 ≤ r ∧ r < 127) ∨ 0xA0 < r)) (str "App")
          ++ str " subtitle "
          ++ Quote (fun r => decide ((32 ≤ r ∧ r < 127) ∨ 0xA0 < r)) (str "say \"hi\"")]] ∧
    Quote (fun r => decide ((32 ≤ r ∧ r < 127) ∨ 0xA0 < r)) (str "say \"hi\"") =
      str "\"say \\\"hi\\\"\"" ∧
    Quote (fun r => decide ((32 ≤ r ∧ r < 127) ∨ 0xA0 < r)) (str "a\\b") = str "\"a\\\\b\"" ∧
    Quote (fun r => decide ((32 ≤ r ∧ r < 127) ∨ 0xA0 < r))
        (encodeRunes [0x63, 0x61, 0x66, 0xE9]) =
      [34, 0x63, 0x61, 0x66, 0xC3, 0xA9, 34] ∧
    readValues (str "display notification "
        ++ Quote (fun r => decide ((32 ≤ r ∧ r < 127) ∨ 0xA0 < r)) (str "a\\b")
        ++ str " with title "
        ++ Quote (fun r => decide ((32 ≤ r ∧ r < 127) ∨ 0xA0 < r)) (str "App")
        ++ str " subtitle "
        ++ Quote (fun r => decide ((32 ≤ r ∧ r < 127) ∨ 0xA0 < r)) (str "say \"hi\"")) =
      some (str "a\\b", str "App", str "say \"hi\"") :=
  have h := ShowMessage_darwin_script (fun r => decide ((32 ≤ r ∧ r < 127) ∨ 0xA0 < r))
    (fun _ => .ok (str "/usr/bin/osascript")) (fun _ _ => none)
    (str "/usr/bin/osascript") (str "App") (str "say \"hi\"") (str "a\\b") rfl
  ⟨h.1,
    (h.2.2.2.2.2.2.1 (str "say \"hi\"") (by decide)).trans (by decide),
    (h.2.2.2.2.2.2.1 (str "a\\b") (by decide)).trans (by decide),
    (h.2.2.2.2.2.2.2.2.2 [0x63, 0x61, 0x66, 0xE9] (by decide)).trans (by decide),
    h.2.2.2.2.2.2.2.2.1 (by decide) (by decide) (by decide)⟩

end Systray
